import Mathlib

/-!
Verification development for the BachT interpreter and coordination runtime.

The definitions below are shallow embeddings of the Rust sources:
* `src/bacht/bacht_store.rs` and `src/blackboard/store.rs` (the token store),
* `src/interpreter/bacht_simulator.rs` and `src/cli/simulator.rs` (the
  small-step agent interpreter),
* `src/core/blackboard/task_queue.rs` (the FIFO task queue),
* `src/bacht/bacht_parser.rs` (the agent grammar parser).

The theorems at the end of the file settle the specification claims.
-/

/-! ## The token store

`HashMap<Box<str>, u32>` is modelled as a function from tokens to
`Option Nat`: `none` is key absence, `some n` is presence with count `n`.
Counts in the source are `u32`, so saturation happens at `u32::MAX`.
Mutating methods return the new store next to their boolean result.
-/

/-- `u32::MAX` of the source. -/
def U32_MAX : Nat := 4294967295

/-- The store contents: `the_store : HashMap<Box<str>, u32>`. -/
def BachTStore : Type := String → Option Nat

/-- `BachTStore::new()` / `HashMap::new()`: the empty store. -/
def BachTStore.emptyStore : BachTStore := fun _ => none

/-- Writing one entry of the map, as `HashMap::insert` / in-place entry update. -/
def BachTStore.update (sigma : BachTStore) (token : String) (n : Nat) : BachTStore :=
  fun x => if x = token then some n else sigma x

/-- `BachTStore::safe_inc`: increment capped at `u32::MAX` (never wraps). -/
def BachTStore.safe_inc (nbr : Nat) : Nat :=
  if nbr < U32_MAX then nbr + 1 else nbr

/-- `BachTStore::tell`: `entry(token).and_modify(safe_inc).or_insert(1)`, returns `true`. -/
def BachTStore.tell (sigma : BachTStore) (token : String) : Bool × BachTStore :=
  match sigma token with
  | some n => (true, sigma.update token (BachTStore.safe_inc n))
  | none => (true, sigma.update token 1)

/-- `BachTStore::ask`: `false` if the key is absent, else `count > 0`. Non-mutating. -/
def BachTStore.ask (sigma : BachTStore) (token : String) : Bool :=
  match sigma token with
  | some n => decide (0 < n)
  | none => false

/-- `BachTStore::get`: `entry(token).and_modify(decrement when count > 0)`;
no `or_insert`, so an absent key is never created. -/
def BachTStore.get (sigma : BachTStore) (token : String) : Bool × BachTStore :=
  match sigma token with
  | some n => if 0 < n then (true, sigma.update token (n - 1)) else (false, sigma)
  | none => (false, sigma)

/-- `BachTStore::nask`: `true` if the key is absent, else `count <= 0`. Non-mutating. -/
def BachTStore.nask (sigma : BachTStore) (token : String) : Bool :=
  match sigma token with
  | some n => decide (n ≤ 0)
  | none => true

/-- `BachTStore::clear_store`: remove all entries. -/
def BachTStore.clear_store (_sigma : BachTStore) : BachTStore := fun _ => none

/-- `k` successive `tell token` calls starting from the empty store. -/
def BachTStore.tellRepeat (token : String) : Nat → BachTStore
  | 0 => BachTStore.emptyStore
  | k + 1 => (BachTStore.tell (BachTStore.tellRepeat token k) token).2

/-! ## The agent AST

`Expr` of `src/cli/model/data.rs` (and `bacht_data` of the interpreter):
the operator and primitive fields are arbitrary strings, exactly as the
`&str` fields of the Rust enum.  The parser's own `Expr` is the same type
minus the (commented-out) empty agent, which it never produces.
-/

/-- The BachT AST used to represent agents. -/
inductive Expr where
  | BachtAstEmptyAgent : Expr
  | BachtAstPrimitive (primitive token : String) : Expr
  | BachtAstAgent (op : String) (agI agII : Expr) : Expr
deriving DecidableEq

/-- The run-time errors of the simulator: `CLIError::UnknownPrimitive` of
`exec_primitive`, and the `panic!("Unknown agent")` arm of `run_one`
(modelled as an error value). -/
inductive SimError where
  | UnknownAgent : SimError
  | UnknownPrimitive (primitive : String) : SimError
deriving DecidableEq

/-- Ghost log entry for one blackboard primitive invocation:
(primitive, token, boolean result). -/
abbrev PrimCall := String × String × Bool

/-- `exec_primitive` of the simulator: dispatch on the primitive name to the
store, any other name is `CLIError::UnknownPrimitive` (a panic in the
interpreter iteration). -/
def exec_primitive (sigma : BachTStore) (primitive token : String) :
    Except SimError (Bool × BachTStore) :=
  if primitive = "tell" then .ok (BachTStore.tell sigma token)
  else if primitive = "ask" then .ok (BachTStore.ask sigma token, sigma)
  else if primitive = "get" then .ok (BachTStore.get sigma token)
  else if primitive = "nask" then .ok (BachTStore.nask sigma token, sigma)
  else .error (.UnknownPrimitive primitive)

/-- `run_one`: one small step of the agent.  The helper functions of the
source (`run_one_primitive`, `run_one_sequence`, `run_one_parallel`,
`run_one_choice`, `parallel_branch_exec`, `choice_branch_exec`) are inlined
so that the recursion is structural; each arm is labelled with the source
function it comes from.  `c` is the stream of `rand::random::<bool>()`
draws and `k` the index of the next draw; the store is threaded through,
and the list of blackboard calls is returned as a ghost log. -/
def run_one (c : Nat → Bool) : Expr → BachTStore → Nat →
    Except SimError ((Bool × Expr) × BachTStore × Nat × List PrimCall)
  | .BachtAstPrimitive prim token, sigma, k =>
    -- run_one_primitive
    match exec_primitive sigma prim token with
    | .ok (true, sigma') => .ok ((true, .BachtAstEmptyAgent), sigma', k, [(prim, token, true)])
    | .ok (false, sigma') => .ok ((false, .BachtAstPrimitive prim token), sigma', k, [(prim, token, false)])
    | .error e => .error e
  | .BachtAstAgent op agI agII, sigma, k =>
    if op = ";" then
      -- run_one_sequence
      match run_one c agI sigma k with
      | .ok ((false, agI'), sigma', k', tr) =>
        .ok ((false, .BachtAstAgent ";" agI' agII), sigma', k', tr)
      | .ok ((true, .BachtAstEmptyAgent), sigma', k', tr) => .ok ((true, agII), sigma', k', tr)
      | .ok ((true, agCont), sigma', k', tr) =>
        .ok ((true, .BachtAstAgent ";" agCont agII), sigma', k', tr)
      | .error e => .error e
    else if op = "||" then
      -- run_one_parallel: one coin toss, then parallel_branch_exec on the
      -- chosen order (the branch-exec body is inlined in both arms)
      if c k then
        match run_one c agI sigma (k + 1) with
        | .ok ((false, agI'), sigma', k', trI) =>
          match run_one c agII sigma' k' with
          | .ok ((false, agII'), sigma'', k'', trII) =>
            .ok ((false, .BachtAstAgent "||" agI' agII'), sigma'', k'', trI ++ trII)
          | .ok ((true, .BachtAstEmptyAgent), sigma'', k'', trII) =>
            .ok ((true, agI'), sigma'', k'', trI ++ trII)
          | .ok ((true, agCont), sigma'', k'', trII) =>
            .ok ((true, .BachtAstAgent "||" agI' agCont), sigma'', k'', trI ++ trII)
          | .error e => .error e
        | .ok ((true, .BachtAstEmptyAgent), sigma', k', trI) => .ok ((true, agII), sigma', k', trI)
        | .ok ((true, agCont), sigma', k', trI) =>
          .ok ((true, .BachtAstAgent "||" agCont agII), sigma', k', trI)
        | .error e => .error e
      else
        match run_one c agII sigma (k + 1) with
        | .ok ((false, agII'), sigma', k', trII) =>
          match run_one c agI sigma' k' with
          | .ok ((false, agI'), sigma'', k'', trI) =>
            .ok ((false, .BachtAstAgent "||" agII' agI'), sigma'', k'', trII ++ trI)
          | .ok ((true, .BachtAstEmptyAgent), sigma'', k'', trI) =>
            .ok ((true, agII'), sigma'', k'', trII ++ trI)
          | .ok ((true, agCont), sigma'', k'', trI) =>
            .ok ((true, .BachtAstAgent "||" agII' agCont), sigma'', k'', trII ++ trI)
          | .error e => .error e
        | .ok ((true, .BachtAstEmptyAgent), sigma', k', trII) => .ok ((true, agI), sigma', k', trII)
        | .ok ((true, agCont), sigma', k', trII) =>
          .ok ((true, .BachtAstAgent "||" agCont agI), sigma', k', trII)
        | .error e => .error e
    else if op = "+" then
      -- run_one_choice: one coin toss, then choice_branch_exec on the
      -- chosen order (the branch-exec body is inlined in both arms)
      if c k then
        match run_one c agI sigma (k + 1) with
        | .ok ((false, agI'), sigma', k', trI) =>
          match run_one c agII sigma' k' with
          | .ok ((false, agII'), sigma'', k'', trII) =>
            .ok ((false, .BachtAstAgent "+" agI' agII'), sigma'', k'', trI ++ trII)
          | .ok ((true, .BachtAstEmptyAgent), sigma'', k'', trII) =>
            .ok ((true, .BachtAstEmptyAgent), sigma'', k'', trI ++ trII)
          | .ok ((true, agCont), sigma'', k'', trII) =>
            .ok ((true, agCont), sigma'', k'', trI ++ trII)
          | .error e => .error e
        | .ok ((true, .BachtAstEmptyAgent), sigma', k', trI) =>
          .ok ((true, .BachtAstEmptyAgent), sigma', k', trI)
        | .ok ((true, agCont), sigma', k', trI) => .ok ((true, agCont), sigma', k', trI)
        | .error e => .error e
      else
        match run_one c agII sigma (k + 1) with
        | .ok ((false, agII'), sigma', k', trII) =>
          match run_one c agI sigma' k' with
          | .ok ((false, agI'), sigma'', k'', trI) =>
            .ok ((false, .BachtAstAgent "+" agII' agI'), sigma'', k'', trII ++ trI)
          | .ok ((true, .BachtAstEmptyAgent), sigma'', k'', trI) =>
            .ok ((true, .BachtAstEmptyAgent), sigma'', k'', trII ++ trI)
          | .ok ((true, agCont), sigma'', k'', trI) =>
            .ok ((true, agCont), sigma'', k'', trII ++ trI)
          | .error e => .error e
        | .ok ((true, .BachtAstEmptyAgent), sigma', k', trII) =>
          .ok ((true, .BachtAstEmptyAgent), sigma', k', trII)
        | .ok ((true, agCont), sigma', k', trII) => .ok ((true, agCont), sigma', k', trII)
        | .error e => .error e
    else .error .UnknownAgent
  | .BachtAstEmptyAgent, _, _ =>
    -- the `_ => panic!("Unknown agent")` arm of run_one
    .error .UnknownAgent

/-- `bacht_exec_all`: repeat `run_one` until the agent is empty (`true`) or a
step makes no progress (`false`).  The Rust loop has no bound; here `fuel`
bounds the number of iterations and `none` means the bound was hit.  The
store is threaded and the ghost logs of the steps are concatenated. -/
def bacht_exec_all (c : Nat → Bool) (ag : Expr) (sigma : BachTStore) (k : Nat) :
    Nat → Option (Except SimError (Bool × BachTStore × List PrimCall))
  | 0 => none
  | fuel + 1 =>
    if ag = .BachtAstEmptyAgent then some (.ok (true, sigma, []))
    else
      match run_one c ag sigma k with
      | .error e => some (.error e)
      | .ok ((false, _agCont), sigma', _k', tr) => some (.ok (false, sigma', tr))
      | .ok ((true, agCont), sigma', k', tr) =>
        match bacht_exec_all c agCont sigma' k' fuel with
        | none => none
        | some (.error e) => some (.error e)
        | some (.ok (b, sigma'', tr')) => some (.ok (b, sigma'', tr ++ tr'))

/-- Structural equality of two agents up to swapping the two children of
`||` and `+` nodes. -/
def swapEq : Expr → Expr → Bool
  | .BachtAstEmptyAgent, .BachtAstEmptyAgent => true
  | .BachtAstPrimitive p t, .BachtAstPrimitive p' t' => p == p' && t == t'
  | .BachtAstAgent op l r, .BachtAstAgent op' l' r' =>
    op == op' &&
      (swapEq l l' && swapEq r r' ||
        ((op == "||" || op == "+") && swapEq l r' && swapEq r l'))
  | _, _ => false

/-- Surface well-formedness: the shape of every AST the parser can produce —
no empty agent, operators among `;`/`||`/`+`, primitives among the four. -/
def AgentWF : Expr → Bool
  | .BachtAstEmptyAgent => false
  | .BachtAstPrimitive p _ => p == "tell" || p == "ask" || p == "get" || p == "nask"
  | .BachtAstAgent op l r =>
    (op == ";" || op == "||" || op == "+") && AgentWF l && AgentWF r

/-! ## The task queue

`src/core/blackboard/task_queue.rs`: a `Vec<Task>` where
`add_event_to_queue` inserts at index 0 and `get_task` pops the last
element.  The one-shot reply channel endpoint carried by a `Task` and the
`Notify` handle are concurrency primitives with no data content; the claim
about the queue concerns only the order of the carried events, so a task is
modelled by its event. -/

/-- `Action` of `core/model/action.rs`. -/
inductive TaskQueue.Action where
  | Tell (token : String) : TaskQueue.Action
  | Ask (token : String) : TaskQueue.Action
  | Nask (token : String) : TaskQueue.Action
  | Get (token : String) : TaskQueue.Action
deriving DecidableEq

/-- `Event` of `core/model/event.rs`. -/
structure TaskQueue.Event where
  action : TaskQueue.Action
deriving DecidableEq

/-- `Task` of `core/model/task.rs` (the reply channel endpoint omitted). -/
structure TaskQueue.Task where
  event : TaskQueue.Event
deriving DecidableEq

/-- `TaskQueue::add_event_to_queue`: `queue.insert(0, Task::new(event))`. -/
def TaskQueue.add_event_to_queue (queue : List TaskQueue.Task) (event : TaskQueue.Event) :
    List TaskQueue.Task :=
  { event := event } :: queue

/-- `TaskQueue::get_task`: `queue.pop()` — remove and return the last
element of the vector, i.e. the oldest task. -/
def TaskQueue.get_task (queue : List TaskQueue.Task) :
    Option TaskQueue.Task × List TaskQueue.Task :=
  match queue.getLast? with
  | none => (none, queue)
  | some t => (some t, queue.dropLast)

/-- Repeated `get_task` until the queue is empty (at most `n` pops). -/
def TaskQueue.drain : Nat → List TaskQueue.Task → List TaskQueue.Task
  | 0, _ => []
  | n + 1, queue =>
    match TaskQueue.get_task queue with
    | (none, _) => []
    | (some t, queue') => t :: TaskQueue.drain n queue'

/-! ## The parser

`src/bacht/bacht_parser.rs`, built on nom combinators.  Input is the
character list of the input string; a successful parse returns the
remaining input next to the value, as nom's `IResult` does.  Errors carry
the failing input position and a nom `ErrorKind`.  The Rust recursion has
no explicit bound; here the mutually recursive grammar functions take a
fuel parameter decremented at every call, and `parse` supplies
`5 * (length + 1)` fuel, which the theorems show is never exhausted on the
inputs they concern (`OutOfFuel` is the artifact error of the embedding). -/

/-- The nom `ErrorKind` values the parser can produce: `Tag` (a literal
failed to match), `RegexpFind` (the token regex failed), `Eof` (trailing
input under `all_consuming`), `Complete` (the dead arm of `parse_agent`),
plus the fuel artifact. -/
inductive ErrKind where
  | Tag : ErrKind
  | RegexpFind : ErrKind
  | Eof : ErrKind
  | Complete : ErrKind
  | OutOfFuel : ErrKind
deriving DecidableEq

/-- `nom::error::Error`: the failing input and the error kind. -/
structure PError where
  input : List Char
  code : ErrKind
deriving DecidableEq

/-- nom's `tag`: match a literal prefix, consume it, or fail with `Tag`. -/
def tagP (s : List Char) (input : List Char) : Except PError (List Char) :=
  if s.isPrefixOf input then .ok (input.drop s.length) else .error ⟨input, .Tag⟩

/-- `[a-z]` of the token regex. -/
def isLowerCh (ch : Char) : Bool := 'a' ≤ ch && ch ≤ 'z'

/-- `[a-zA-Z0-9_]` of the token regex. -/
def isTokenCh (ch : Char) : Bool :=
  ('a' ≤ ch && ch ≤ 'z') || ('A' ≤ ch && ch ≤ 'Z') || ('0' ≤ ch && ch ≤ '9') || ch = '_'

/-- `token`: the longest prefix matching `^[a-z][a-zA-Z0-9_]*`, or
`RegexpFind` at the original input. -/
def token : List Char → Except PError (List Char × List Char)
  | [] => .error ⟨[], .RegexpFind⟩
  | ch :: rest =>
    if isLowerCh ch then .ok (rest.dropWhile isTokenCh, ch :: rest.takeWhile isTokenCh)
    else .error ⟨ch :: rest, .RegexpFind⟩

/-- One `delimited(tag(kw), token, tag(")"))` branch of `primitive`, mapped
to the `Expr` constructor. -/
def prim_case (kw : List Char) (name : String) (input : List Char) :
    Except PError (List Char × Expr) :=
  match tagP kw input with
  | .error e => .error e
  | .ok rest1 =>
    match token rest1 with
    | .error e => .error e
    | .ok (rest2, tok) =>
      match tagP [')'] rest2 with
      | .error e => .error e
      | .ok rest3 => .ok (rest3, .BachtAstPrimitive name (String.mk tok))

/-- `primitive`: the `or_else` chain over the four keywords. -/
def primitive (input : List Char) : Except PError (List Char × Expr) :=
  match prim_case "tell(".data "tell" input with
  | .ok r => .ok r
  | .error _ =>
    match prim_case "ask(".data "ask" input with
    | .ok r => .ok r
    | .error _ =>
      match prim_case "get(".data "get" input with
      | .ok r => .ok r
      | .error _ => prim_case "nask(".data "nask" input

mutual
/-- `composition_choice`: `(composition_para, complete(opt((tag("+"),
composition_choice))))`; `opt` swallows any failure of the pair and
consumes nothing. -/
def composition_choice : Nat → List Char → Except PError (List Char × Expr)
  | 0, input => .error ⟨input, .OutOfFuel⟩
  | fuel + 1, input =>
    match composition_para fuel input with
    | .error e => .error e
    | .ok (rest1, agi) =>
      match tagP ['+'] rest1 with
      | .error _ => .ok (rest1, agi)
      | .ok rest2 =>
        match composition_choice fuel rest2 with
        | .error _ => .ok (rest1, agi)
        | .ok (rest3, agii) => .ok (rest3, .BachtAstAgent "+" agi agii)

/-- `composition_para`: same shape over `tag("||")`. -/
def composition_para : Nat → List Char → Except PError (List Char × Expr)
  | 0, input => .error ⟨input, .OutOfFuel⟩
  | fuel + 1, input =>
    match composition_seq fuel input with
    | .error e => .error e
    | .ok (rest1, agi) =>
      match tagP ['|', '|'] rest1 with
      | .error _ => .ok (rest1, agi)
      | .ok rest2 =>
        match composition_para fuel rest2 with
        | .error _ => .ok (rest1, agi)
        | .ok (rest3, agii) => .ok (rest3, .BachtAstAgent "||" agi agii)

/-- `composition_seq`: same shape over `tag(";")`. -/
def composition_seq : Nat → List Char → Except PError (List Char × Expr)
  | 0, input => .error ⟨input, .OutOfFuel⟩
  | fuel + 1, input =>
    match simple_agent fuel input with
    | .error e => .error e
    | .ok (rest1, agi) =>
      match tagP [';'] rest1 with
      | .error _ => .ok (rest1, agi)
      | .ok rest2 =>
        match composition_seq fuel rest2 with
        | .error _ => .ok (rest1, agi)
        | .ok (rest3, agii) => .ok (rest3, .BachtAstAgent ";" agi agii)

/-- `simple_agent`: `primitive(input).or_else(|_| parenthesized_agent(input))`. -/
def simple_agent : Nat → List Char → Except PError (List Char × Expr)
  | 0, input => .error ⟨input, .OutOfFuel⟩
  | fuel + 1, input =>
    match primitive input with
    | .ok r => .ok r
    | .error _ => parenthesized_agent fuel input

/-- `parenthesized_agent`: `delimited(tag("("), composition_choice, tag(")"))`. -/
def parenthesized_agent : Nat → List Char → Except PError (List Char × Expr)
  | 0, input => .error ⟨input, .OutOfFuel⟩
  | fuel + 1, input =>
    match tagP ['('] input with
    | .error e => .error e
    | .ok rest1 =>
      match composition_choice fuel rest1 with
      | .error e => .error e
      | .ok (rest2, ag) =>
        match tagP [')'] rest2 with
        | .error e => .error e
        | .ok rest3 => .ok (rest3, ag)
end

/-- `agent(input) = composition_choice(input)`. -/
def agent (fuel : Nat) (input : List Char) : Except PError (List Char × Expr) :=
  composition_choice fuel input

/-- The fuel `parse` supplies; ample for any parse of the given input. -/
def parse_fuel (input : List Char) : Nat := 5 * (input.length + 1)

/-- nom's `all_consuming`: run `agent` and fail with `Eof` at the remaining
input unless it consumed everything. -/
def all_consuming (fuel : Nat) (input : List Char) : Except PError (List Char × Expr) :=
  match agent fuel input with
  | .ok (rest, expr) => if rest = [] then .ok (rest, expr) else .error ⟨rest, .Eof⟩
  | .error e => .error e

/-- `parse_agent`: match on `all_consuming(agent)`; the `Ok((_, _))` arm
producing `Complete` is dead because `all_consuming` already failed. -/
def parse_agent (input : List Char) : Except PError Expr :=
  match all_consuming (parse_fuel input) input with
  | .ok ([], expr) => .ok expr
  | .ok (_, _) => .error ⟨input, .Complete⟩
  | .error e => .error e

/-- `parse(input) = parse_agent(input)`. -/
def parse (input : String) : Except PError Expr := parse_agent input.data

/-- The text `pr ++ "(" ++ t ++ ")"` of a primitive sub-agent. -/
def pstr (pr : String) (t : List Char) : List Char := pr.data ++ ('(' :: (t ++ [')']))

/-- Whole-string match of the token regex `^[a-z][a-zA-Z0-9_]*`. -/
def isValidToken : List Char → Bool
  | [] => false
  | ch :: rest => isLowerCh ch && rest.all isTokenCh

/-- A sub-agent text at the atom level of the grammar: `simple_agent`
accepts `S` as an atom denoting `P` and leaves exactly the remaining
input, for every continuation and all sufficient fuel (the fuel `parse`
itself grants an input of that length). Both productions of
`simple_agent` - a primitive, and a parenthesized agent - yield such
texts. -/
def IsSimpleSubAgent (S : List Char) (P : Expr) : Prop :=
  ∀ (r : List Char) (f : Nat), 5 * (S.length + 1) ≤ f →
    simple_agent f (S ++ r) = .ok (r, P)

/-! ## Theorems -/

/-- `swapEq` is reflexive. -/
theorem swapEq_refl (e : Expr) : swapEq e e = true := by
  induction e with
  | BachtAstEmptyAgent => rfl
  | BachtAstPrimitive p t => simp [swapEq]
  | BachtAstAgent op l r ihl ihr => simp [swapEq, ihl, ihr]

/-- A step that makes no progress returns the input agent with the two
children of each `||`/`+` node possibly swapped (the order the coin chose). -/
theorem run_one_false_swapEq (ag : Expr) :
    ∀ (c : Nat → Bool) (sigma : BachTStore) (k : Nat) (r : Expr) (sigma' : BachTStore)
      (k' : Nat) (tr : List PrimCall),
      run_one c ag sigma k = .ok ((false, r), sigma', k', tr) → swapEq ag r = true := by
  induction ag with
  | BachtAstEmptyAgent =>
    intro c sigma k r sigma' k' tr h
    simp [run_one] at h
  | BachtAstPrimitive p t =>
    intro c sigma k r sigma' k' tr h
    unfold run_one at h
    split at h <;> simp_all [swapEq, swapEq_refl]
  | BachtAstAgent op l rr ihl ihr =>
    intro c sigma k r sigma' k' tr h
    unfold run_one at h
    repeat' split at h
    all_goals simp at h
    all_goals try (obtain ⟨h1, h2, h3, h4⟩ := h; subst h1)
    all_goals simp_all [swapEq, swapEq_refl]
    all_goals first
    | exact ihl _ _ _ _ _ _ _ (by assumption)
    | exact Or.inl ⟨ihl _ _ _ _ _ _ _ (by assumption), ihr _ _ _ _ _ _ _ (by assumption)⟩
    | exact Or.inr ⟨ihl _ _ _ _ _ _ _ (by assumption), ihr _ _ _ _ _ _ _ (by assumption)⟩

/-- When every coin picks the left branch first, a step that makes no
progress returns the input agent itself, deep-structurally equal. -/
theorem run_one_false_leftFirst (ag : Expr) :
    ∀ (sigma : BachTStore) (k : Nat) (r : Expr) (sigma' : BachTStore)
      (k' : Nat) (tr : List PrimCall),
      run_one (fun _ => true) ag sigma k = .ok ((false, r), sigma', k', tr) → r = ag := by
  induction ag with
  | BachtAstEmptyAgent =>
    intro sigma k r sigma' k' tr h
    simp [run_one] at h
  | BachtAstPrimitive p t =>
    intro sigma k r sigma' k' tr h
    unfold run_one at h
    split at h <;> simp_all
  | BachtAstAgent op l rr ihl ihr =>
    intro sigma k r sigma' k' tr h
    unfold run_one at h
    repeat' split at h
    all_goals simp at h
    all_goals try (obtain ⟨h1, h2, h3, h4⟩ := h; subst h1)
    all_goals simp_all
    all_goals first
    | exact ihl _ _ _ _ _ _ (by assumption)
    | exact ⟨ihl _ _ _ _ _ _ (by assumption), ihr _ _ _ _ _ _ (by assumption)⟩

/-- The top-level loop stops with `Ok(false)` as soon as one step makes no
progress, whatever the residual is: there is no equality check. -/
theorem bacht_exec_all_false_step (c : Nat → Bool) (ag : Expr) (sigma : BachTStore) (k : Nat)
    (r : Expr) (sigma' : BachTStore) (k' : Nat) (tr : List PrimCall) (fuel : Nat)
    (hne : ag ≠ .BachtAstEmptyAgent)
    (h : run_one c ag sigma k = .ok ((false, r), sigma', k', tr)) :
    bacht_exec_all c ag sigma k (fuel + 1) = some (.ok (false, sigma', tr)) := by
  unfold bacht_exec_all
  rw [if_neg hne, h]

/-- C1 (amended): `bacht_exec_all` terminates with `Ok(false)` as soon as a
single `run_one` step returns `(false, _)`; it performs no equality check on
the residual.  Whenever `run_one` returns `(false, residual)`, the residual
is the input expression with the two children of each `||`/`+` node possibly
swapped according to that node's coin toss (`swapEq`); when every coin picks
the left branch first the residual is deep-structurally equal to the input. -/
theorem C1_deadlock_detection :
    (∀ (c : Nat → Bool) (ag : Expr) (sigma : BachTStore) (k : Nat) (r : Expr)
       (sigma' : BachTStore) (k' : Nat) (tr : List PrimCall) (fuel : Nat),
       ag ≠ .BachtAstEmptyAgent →
       run_one c ag sigma k = .ok ((false, r), sigma', k', tr) →
       bacht_exec_all c ag sigma k (fuel + 1) = some (.ok (false, sigma', tr)))
  ∧ (∀ (c : Nat → Bool) (ag : Expr) (sigma : BachTStore) (k : Nat) (r : Expr)
       (sigma' : BachTStore) (k' : Nat) (tr : List PrimCall),
       run_one c ag sigma k = .ok ((false, r), sigma', k', tr) → swapEq ag r = true)
  ∧ (∀ (ag : Expr) (sigma : BachTStore) (k : Nat) (r : Expr)
       (sigma' : BachTStore) (k' : Nat) (tr : List PrimCall),
       run_one (fun _ => true) ag sigma k = .ok ((false, r), sigma', k', tr) → r = ag) :=
  ⟨fun c ag sigma k r sigma' k' tr fuel hne h =>
      bacht_exec_all_false_step c ag sigma k r sigma' k' tr fuel hne h,
   fun c ag sigma k r sigma' k' tr h => run_one_false_swapEq ag c sigma k r sigma' k' tr h,
   fun ag sigma k r sigma' k' tr h => run_one_false_leftFirst ag sigma k r sigma' k' tr h⟩

/-- Witness for C1: concrete instances of all three parts. -/
theorem C1_deadlock_detection_witness :
    bacht_exec_all (fun _ => false)
      (.BachtAstAgent "+" (.BachtAstPrimitive "ask" "a") (.BachtAstPrimitive "ask" "b"))
      BachTStore.emptyStore 0 1
      = some (.ok (false, BachTStore.emptyStore, [("ask", "b", false), ("ask", "a", false)]))
  ∧ swapEq (.BachtAstAgent "+" (.BachtAstPrimitive "ask" "a") (.BachtAstPrimitive "ask" "b"))
      (.BachtAstAgent "+" (.BachtAstPrimitive "ask" "b") (.BachtAstPrimitive "ask" "a")) = true
  ∧ (.BachtAstAgent "+" (.BachtAstPrimitive "ask" "a") (.BachtAstPrimitive "ask" "b") : Expr)
      = .BachtAstAgent "+" (.BachtAstPrimitive "ask" "a") (.BachtAstPrimitive "ask" "b") :=
  ⟨C1_deadlock_detection.1 (fun _ => false)
      (.BachtAstAgent "+" (.BachtAstPrimitive "ask" "a") (.BachtAstPrimitive "ask" "b"))
      BachTStore.emptyStore 0
      (.BachtAstAgent "+" (.BachtAstPrimitive "ask" "b") (.BachtAstPrimitive "ask" "a"))
      BachTStore.emptyStore 1 [("ask", "b", false), ("ask", "a", false)] 0 (by decide) rfl,
   C1_deadlock_detection.2.1 (fun _ => false)
      (.BachtAstAgent "+" (.BachtAstPrimitive "ask" "a") (.BachtAstPrimitive "ask" "b"))
      BachTStore.emptyStore 0
      (.BachtAstAgent "+" (.BachtAstPrimitive "ask" "b") (.BachtAstPrimitive "ask" "a"))
      BachTStore.emptyStore 1 [("ask", "b", false), ("ask", "a", false)] rfl,
   C1_deadlock_detection.2.2
      (.BachtAstAgent "+" (.BachtAstPrimitive "ask" "a") (.BachtAstPrimitive "ask" "b"))
      BachTStore.emptyStore 0
      (.BachtAstAgent "+" (.BachtAstPrimitive "ask" "a") (.BachtAstPrimitive "ask" "b"))
      BachTStore.emptyStore 1 [("ask", "a", false), ("ask", "b", false)] rfl⟩

/-- Counterexample for C1 as stated: on `ask(a)+ask(b)` against the empty
store with a right-first coin, `run_one` returns `(false, residual)` with a
residual that is not deep-structurally equal to the input (the branches are
swapped), and `bacht_exec_all` still declares deadlock (`Ok(false)`). -/
theorem C1_residual_not_equal_counterexample :
    run_one (fun _ => false)
      (.BachtAstAgent "+" (.BachtAstPrimitive "ask" "a") (.BachtAstPrimitive "ask" "b"))
      BachTStore.emptyStore 0
      = .ok ((false, .BachtAstAgent "+" (.BachtAstPrimitive "ask" "b") (.BachtAstPrimitive "ask" "a")),
          BachTStore.emptyStore, 1, [("ask", "b", false), ("ask", "a", false)])
  ∧ (.BachtAstAgent "+" (.BachtAstPrimitive "ask" "b") (.BachtAstPrimitive "ask" "a") : Expr)
      ≠ .BachtAstAgent "+" (.BachtAstPrimitive "ask" "a") (.BachtAstPrimitive "ask" "b")
  ∧ bacht_exec_all (fun _ => false)
      (.BachtAstAgent "+" (.BachtAstPrimitive "ask" "a") (.BachtAstPrimitive "ask" "b"))
      BachTStore.emptyStore 0 1
      = some (.ok (false, BachTStore.emptyStore, [("ask", "b", false), ("ask", "a", false)])) :=
  ⟨rfl, by decide, rfl⟩

/-- C2: one step of `Op("+", L, R)` steps the coin-chosen branch first, and
if that branch makes progress the whole step is exactly that branch's step:
same residual, same store, same coin counter, and the same ghost log of
blackboard calls, so the other branch is neither executed nor kept.  In
particular `nask(a)+ask(a)` from the empty store returns `Ok(true)` for
every coin stream, and the only blackboard calls are the successful `nask`,
preceded (only when the coin picks the `ask` branch first) by one failed
`ask`; a successful `ask` never runs. -/
theorem C2_choice_commits :
    (∀ (c : Nat → Bool) (L R : Expr) (sigma : BachTStore) (k : Nat) (r : Expr)
       (sigma' : BachTStore) (k' : Nat) (tr : List PrimCall),
       run_one c (if c k then L else R) sigma (k + 1) = .ok ((true, r), sigma', k', tr) →
       run_one c (.BachtAstAgent "+" L R) sigma k = .ok ((true, r), sigma', k', tr))
  ∧ (∀ (c : Nat → Bool) (k : Nat),
       bacht_exec_all c
         (.BachtAstAgent "+" (.BachtAstPrimitive "nask" "a") (.BachtAstPrimitive "ask" "a"))
         BachTStore.emptyStore k 2
       = some (.ok (true, BachTStore.emptyStore,
           if c k then [("nask", "a", true)] else [("ask", "a", false), ("nask", "a", true)]))) := by
  constructor
  · intro c L R sigma k r sigma' k' tr h
    by_cases hc : c k
    · rw [if_pos hc] at h
      unfold run_one
      simp only [hc]
      simp [h]
      cases r <;> simp
    · rw [if_neg hc] at h
      unfold run_one
      simp only [Bool.not_eq_true] at hc
      simp only [hc]
      simp [h]
      cases r <;> simp
  · intro c k
    cases h : c k <;>
      simp [bacht_exec_all, run_one, exec_primitive, h, BachTStore.tell, BachTStore.get,
        BachTStore.ask, BachTStore.nask, BachTStore.emptyStore, BachTStore.update]

/-- Witness for C2: both parts at concrete inputs. -/
theorem C2_choice_commits_witness :
    run_one (fun _ => true)
      (.BachtAstAgent "+" (.BachtAstPrimitive "nask" "a") (.BachtAstPrimitive "ask" "a"))
      BachTStore.emptyStore 0
      = .ok ((true, .BachtAstEmptyAgent), BachTStore.emptyStore, 1, [("nask", "a", true)])
  ∧ bacht_exec_all (fun _ => true)
      (.BachtAstAgent "+" (.BachtAstPrimitive "nask" "a") (.BachtAstPrimitive "ask" "a"))
      BachTStore.emptyStore 0 2
      = some (.ok (true, BachTStore.emptyStore, [("nask", "a", true)])) :=
  ⟨C2_choice_commits.1 (fun _ => true)
      (.BachtAstPrimitive "nask" "a") (.BachtAstPrimitive "ask" "a")
      BachTStore.emptyStore 0 .BachtAstEmptyAgent
      BachTStore.emptyStore 1 [("nask", "a", true)] rfl,
   by
     have h := C2_choice_commits.2 (fun _ => true) 0
     simpa using h⟩

/-- C3: for every coin stream, running `tell(a)||get(a)` from the empty
store returns `Ok(true)`, and the final store holds token `a` with
occurrence count `0`. -/
theorem C3_parallel_tell_get :
    ∀ (c : Nat → Bool) (k : Nat),
      (∃ tr, bacht_exec_all c
          (.BachtAstAgent "||" (.BachtAstPrimitive "tell" "a") (.BachtAstPrimitive "get" "a"))
          BachTStore.emptyStore k 3
        = some (.ok (true, (BachTStore.emptyStore.update "a" 1).update "a" 0, tr)))
      ∧ ((BachTStore.emptyStore.update "a" 1).update "a" 0) "a" = some 0 := by
  intro c k
  refine ⟨?_, by simp [BachTStore.update]⟩
  cases h : c k
  · exact ⟨[("get", "a", false), ("tell", "a", true), ("get", "a", true)], by
      simp [bacht_exec_all, run_one, exec_primitive, h, BachTStore.tell, BachTStore.get,
        BachTStore.ask, BachTStore.nask, BachTStore.emptyStore, BachTStore.update]⟩
  · exact ⟨[("tell", "a", true), ("get", "a", true)], by
      simp [bacht_exec_all, run_one, exec_primitive, h, BachTStore.tell, BachTStore.get,
        BachTStore.ask, BachTStore.nask, BachTStore.emptyStore, BachTStore.update]⟩

/-- C6: `get(t)` decrements and returns `true` exactly when the count is at
least 1; on an absent key or a zero count it returns `false` and leaves the
store untouched (in particular no key is created); on the empty store it
returns `false` with the store still empty. -/
theorem C6_get_contract :
    ∀ (sigma : BachTStore) (t : String),
      (BachTStore.get sigma t
        = match sigma t with
          | some (n + 1) => (true, sigma.update t n)
          | some 0 => (false, sigma)
          | none => (false, sigma))
      ∧ BachTStore.get BachTStore.emptyStore t = (false, BachTStore.emptyStore) := by
  intro sigma t
  constructor
  · unfold BachTStore.get
    rcases h : sigma t with _ | n
    · rfl
    · cases n <;> simp
  · rfl

/-- `safe_inc` computes the saturating increment. -/
theorem safe_inc_min (n : Nat) (h : n ≤ U32_MAX) :
    BachTStore.safe_inc n = min (n + 1) U32_MAX := by
  unfold BachTStore.safe_inc U32_MAX at *
  rw [Nat.min_def]
  split_ifs <;> omega

/-- `safe_inc` on an already clamped count. -/
theorem safe_inc_min_clamped (k : Nat) :
    BachTStore.safe_inc (min k U32_MAX) = min (k + 1) U32_MAX := by
  unfold BachTStore.safe_inc U32_MAX
  rw [Nat.min_def, Nat.min_def]
  split_ifs <;> omega

/-- The count after `k` `tell t` calls from the empty store is
`min k u32::MAX`. -/
theorem tellRepeat_count (t : String) :
    ∀ k, BachTStore.tellRepeat t k t = if k = 0 then none else some (min k U32_MAX) := by
  intro k
  induction k with
  | zero => rfl
  | succ k ih =>
    by_cases hk : k = 0
    · subst hk
      have h1 : min 1 U32_MAX = 1 := by unfold U32_MAX; rw [Nat.min_def]; split_ifs <;> omega
      simp [BachTStore.tellRepeat, BachTStore.tell, BachTStore.emptyStore,
        BachTStore.update, h1]
    · have hrw : BachTStore.tellRepeat t k t = some (min k U32_MAX) := by rw [ih, if_neg hk]
      show (BachTStore.tell (BachTStore.tellRepeat t k) t).2 t = _
      unfold BachTStore.tell
      rw [hrw]
      simp [BachTStore.update, safe_inc_min_clamped, hk]

/-- C7: `tell(t)` always returns `true`; the new count is the old count plus
one saturating at `u32::MAX` (never wrapping), insertion with count 1 on an
absent key; and `u32::MAX + 1` repeated tells from the empty store leave the
count at exactly `u32::MAX`. -/
theorem C7_tell_saturates :
    (∀ (sigma : BachTStore) (t : String), (BachTStore.tell sigma t).1 = true)
  ∧ (∀ (sigma : BachTStore) (t : String) (n : Nat), sigma t = some n → n ≤ U32_MAX →
      ((BachTStore.tell sigma t).2) t = some (min (n + 1) U32_MAX))
  ∧ (∀ (sigma : BachTStore) (t : String), sigma t = none →
      ((BachTStore.tell sigma t).2) t = some 1)
  ∧ (∀ t : String, BachTStore.tellRepeat t (U32_MAX + 1) t = some U32_MAX) := by
  refine ⟨?_, ?_, ?_, ?_⟩
  · intro sigma t
    unfold BachTStore.tell
    rcases sigma t <;> rfl
  · intro sigma t n h hle
    unfold BachTStore.tell
    rw [h]
    simp [BachTStore.update, safe_inc_min n hle]
  · intro sigma t h
    unfold BachTStore.tell
    rw [h]
    simp [BachTStore.update]
  · intro t
    rw [tellRepeat_count]
    simp [U32_MAX]

/-- Witness for C7 at concrete inputs. -/
theorem C7_tell_saturates_witness :
    (BachTStore.tell (BachTStore.emptyStore.update "a" 3) "a").1 = true
  ∧ ((BachTStore.tell (BachTStore.emptyStore.update "a" 3) "a").2) "a"
      = some (min (3 + 1) U32_MAX)
  ∧ ((BachTStore.tell BachTStore.emptyStore "b").2) "b" = some 1
  ∧ BachTStore.tellRepeat "a" (U32_MAX + 1) "a" = some U32_MAX :=
  ⟨C7_tell_saturates.1 (BachTStore.emptyStore.update "a" 3) "a",
   C7_tell_saturates.2.1 (BachTStore.emptyStore.update "a" 3) "a" 3 rfl (by decide),
   C7_tell_saturates.2.2.1 BachTStore.emptyStore "b" rfl,
   C7_tell_saturates.2.2.2 "a"⟩

/-- C8: a store with `t` absent and the same store with `t` present at count
0 are observationally identical under `ask`, `nask` and `get` (same boolean
results, and neither mutates its store), while `tell` maps both to the very
same store holding `t` at count 1. -/
theorem C8_absent_equals_zero :
    ∀ (sigma : BachTStore) (t : String), sigma t = none →
      BachTStore.ask sigma t = BachTStore.ask (sigma.update t 0) t
      ∧ BachTStore.nask sigma t = BachTStore.nask (sigma.update t 0) t
      ∧ (BachTStore.get sigma t).1 = (BachTStore.get (sigma.update t 0) t).1
      ∧ (BachTStore.get sigma t).2 = sigma
      ∧ (BachTStore.get (sigma.update t 0) t).2 = sigma.update t 0
      ∧ (BachTStore.tell sigma t).2 = sigma.update t 1
      ∧ (BachTStore.tell (sigma.update t 0) t).2 = sigma.update t 1 := by
  intro sigma t h
  have h0 : (sigma.update t 0) t = some 0 := by simp [BachTStore.update]
  refine ⟨?_, ?_, ?_, ?_, ?_, ?_, ?_⟩
  · simp [BachTStore.ask, h, h0]
  · simp [BachTStore.nask, h, h0]
  · simp [BachTStore.get, h, h0]
  · simp [BachTStore.get, h]
  · simp [BachTStore.get, h0]
  · simp [BachTStore.tell, h]
  · unfold BachTStore.tell
    rw [h0]
    have hs : BachTStore.safe_inc 0 = 1 := by unfold BachTStore.safe_inc U32_MAX; simp
    simp only [hs]
    funext x
    by_cases hx : x = t <;> simp [BachTStore.update, hx]

/-- Witness for C8 on the empty store and token `a`. -/
theorem C8_absent_equals_zero_witness :
    BachTStore.ask BachTStore.emptyStore "a"
      = BachTStore.ask (BachTStore.emptyStore.update "a" 0) "a"
  ∧ BachTStore.nask BachTStore.emptyStore "a"
      = BachTStore.nask (BachTStore.emptyStore.update "a" 0) "a"
  ∧ (BachTStore.get BachTStore.emptyStore "a").1
      = (BachTStore.get (BachTStore.emptyStore.update "a" 0) "a").1
  ∧ (BachTStore.get BachTStore.emptyStore "a").2 = BachTStore.emptyStore
  ∧ (BachTStore.get (BachTStore.emptyStore.update "a" 0) "a").2
      = BachTStore.emptyStore.update "a" 0
  ∧ (BachTStore.tell BachTStore.emptyStore "a").2 = BachTStore.emptyStore.update "a" 1
  ∧ (BachTStore.tell (BachTStore.emptyStore.update "a" 0) "a").2
      = BachTStore.emptyStore.update "a" 1 :=
  C8_absent_equals_zero BachTStore.emptyStore "a" rfl

/-- Draining a queue of `n` tasks with `get_task` yields them oldest first. -/
theorem drain_eq_reverse :
    ∀ (n : Nat) (q : List TaskQueue.Task), q.length ≤ n →
      TaskQueue.drain n q = q.reverse := by
  intro n
  induction n with
  | zero =>
    intro q hq
    rw [Nat.le_zero, List.length_eq_zero] at hq
    subst hq
    rfl
  | succ n ih =>
    intro q hq
    rcases q.eq_nil_or_concat with rfl | ⟨l, t, rfl⟩
    · rfl
    · simp only [List.concat_eq_append] at *
      unfold TaskQueue.drain TaskQueue.get_task
      rw [List.getLast?_concat, List.dropLast_concat]
      simp only [List.length_append, List.length_singleton] at hq
      simp [ih l (by omega)]

/-- Enqueueing with `add_event_to_queue` prepends the tasks in reverse. -/
theorem foldl_add_event_to_queue :
    ∀ (events : List TaskQueue.Event) (q : List TaskQueue.Task),
      events.foldl TaskQueue.add_event_to_queue q
        = (events.map (fun e => ({ event := e } : TaskQueue.Task))).reverse ++ q := by
  intro events
  induction events with
  | nil => intro q; rfl
  | cons e es ih =>
    intro q
    simp [List.foldl_cons, ih, TaskQueue.add_event_to_queue]

/-- C9: enqueueing events `e1, …, en` in that order and then dequeuing until
the queue is empty yields the corresponding tasks in exactly the order
`e1, …, en` (FIFO). -/
theorem C9_queue_fifo :
    ∀ (events : List TaskQueue.Event),
      TaskQueue.drain events.length (events.foldl TaskQueue.add_event_to_queue [])
        = events.map (fun e => ({ event := e } : TaskQueue.Task)) := by
  intro events
  rw [foldl_add_event_to_queue, List.append_nil,
    drain_eq_reverse _ _ (by simp), List.reverse_reverse]

/-- `takeWhile` passes over a prefix whose elements all satisfy `p`. -/
theorem takeWhile_append_all {α : Type} (p : α → Bool) :
    ∀ (l₁ l₂ : List α), l₁.all p = true → (l₁ ++ l₂).takeWhile p = l₁ ++ l₂.takeWhile p := by
  intro l₁
  induction l₁ with
  | nil => intro l₂ _; rfl
  | cons a as ih =>
    intro l₂ h
    simp only [List.all_cons, Bool.and_eq_true] at h
    simp [List.takeWhile_cons, h.1, ih l₂ h.2]

/-- `dropWhile` passes over a prefix whose elements all satisfy `p`. -/
theorem dropWhile_append_all {α : Type} (p : α → Bool) :
    ∀ (l₁ l₂ : List α), l₁.all p = true → (l₁ ++ l₂).dropWhile p = l₂.dropWhile p := by
  intro l₁
  induction l₁ with
  | nil => intro l₂ _; rfl
  | cons a as ih =>
    intro l₂ h
    simp only [List.all_cons, Bool.and_eq_true] at h
    simp [List.dropWhile_cons, h.1, ih l₂ h.2]

/-- The token parser takes a whole valid token followed by `)`. -/
theorem token_valid (t r : List Char) (ht : isValidToken t = true) :
    token (t ++ ')' :: r) = .ok ((')' :: r), t) := by
  match t, ht with
  | ch :: rest, ht =>
    simp only [isValidToken, Bool.and_eq_true] at ht
    show token (ch :: (rest ++ ')' :: r)) = _
    simp only [token]
    rw [if_pos ht.1]
    rw [takeWhile_append_all isTokenCh rest (')' :: r) ht.2,
      dropWhile_append_all isTokenCh rest (')' :: r) ht.2]
    simp [List.takeWhile_cons, List.dropWhile_cons, isTokenCh]

/-- A list is a `isPrefixOf` any of its extensions. -/
theorem isPrefixOf_append_self : ∀ (s rest : List Char), s.isPrefixOf (s ++ rest) = true := by
  intro s
  induction s with
  | nil => intro rest; cases rest <;> rfl
  | cons a as ih => intro rest; simp [List.isPrefixOf, ih]

/-- `tag` consumes exactly its literal. -/
theorem tagP_self (s rest : List Char) : tagP s (s ++ rest) = .ok rest := by
  unfold tagP
  rw [if_pos (isPrefixOf_append_self s rest)]
  rw [List.drop_left]

/-- `tag` fails as soon as the first characters differ. -/
theorem tagP_cons_ne (a b : Char) (kw xs : List Char) (hne : (a == b) = false) :
    tagP (a :: kw) (b :: xs) = .error ⟨b :: xs, .Tag⟩ := by
  unfold tagP
  simp [List.isPrefixOf, hne]

/-- A `delimited(tag(kw), token, tag(")"))` branch on its own text. -/
theorem prim_case_ok (kw : List Char) (name : String) (t r : List Char)
    (ht : isValidToken t = true) :
    prim_case kw name (kw ++ (t ++ ')' :: r)) = .ok (r, .BachtAstPrimitive name (String.mk t)) := by
  simp only [prim_case, tagP_self, token_valid t r ht]
  simp only [show tagP [')'] (')' :: r) = .ok r from tagP_self [')'] r]

/-- A `delimited` branch whose keyword does not match. -/
theorem prim_case_fail (kw : List Char) (name : String) (input : List Char)
    (h : tagP kw input = .error ⟨input, .Tag⟩) :
    prim_case kw name input = .error ⟨input, .Tag⟩ := by
  unfold prim_case
  rw [h]

/-- `primitive` on the text of a primitive sub-agent followed by anything. -/
theorem primitive_pstr (pr : String)
    (hpr : pr = "tell" ∨ pr = "ask" ∨ pr = "get" ∨ pr = "nask") (t r : List Char)
    (ht : isValidToken t = true) :
    primitive (pstr pr t ++ r) = .ok (r, .BachtAstPrimitive pr (String.mk t)) := by
  have hshape : ∀ (kw : String), pstr kw t ++ r = kw.data ++ ('(' :: (t ++ ')' :: r)) := by
    intro kw
    simp [pstr]
  rcases hpr with rfl | rfl | rfl | rfl
  · rw [hshape]
    show primitive ("tell(".data ++ (t ++ ')' :: r)) = _
    unfold primitive
    simp only [prim_case_ok "tell(".data "tell" t r ht]
  · rw [hshape]
    have h1 : tagP "tell(".data ('a' :: ('s' :: 'k' :: '(' :: (t ++ ')' :: r)))
        = .error ⟨'a' :: ('s' :: 'k' :: '(' :: (t ++ ')' :: r)), .Tag⟩ :=
      tagP_cons_ne 't' 'a' _ _ (by decide)
    show primitive ('a' :: ('s' :: 'k' :: '(' :: (t ++ ')' :: r))) = _
    unfold primitive
    simp only [prim_case_fail _ _ _ h1]
    show (match prim_case "ask(".data "ask" ("ask(".data ++ (t ++ ')' :: r)) with
      | Except.ok r => Except.ok r
      | Except.error _ =>
        match prim_case "get(".data "get" ("ask(".data ++ (t ++ ')' :: r)) with
        | Except.ok r => Except.ok r
        | Except.error _ => prim_case "nask(".data "nask" ("ask(".data ++ (t ++ ')' :: r))) = _
    simp only [prim_case_ok "ask(".data "ask" t r ht]
  · rw [hshape]
    have h1 : tagP "tell(".data ('g' :: ('e' :: 't' :: '(' :: (t ++ ')' :: r)))
        = .error ⟨'g' :: ('e' :: 't' :: '(' :: (t ++ ')' :: r)), .Tag⟩ :=
      tagP_cons_ne 't' 'g' _ _ (by decide)
    have h2 : tagP "ask(".data ('g' :: ('e' :: 't' :: '(' :: (t ++ ')' :: r)))
        = .error ⟨'g' :: ('e' :: 't' :: '(' :: (t ++ ')' :: r)), .Tag⟩ :=
      tagP_cons_ne 'a' 'g' _ _ (by decide)
    show primitive ('g' :: ('e' :: 't' :: '(' :: (t ++ ')' :: r))) = _
    unfold primitive
    simp only [prim_case_fail _ _ _ h1, prim_case_fail _ _ _ h2]
    show (match prim_case "get(".data "get" ("get(".data ++ (t ++ ')' :: r)) with
      | Except.ok r => Except.ok r
      | Except.error _ => prim_case "nask(".data "nask" ("get(".data ++ (t ++ ')' :: r))) = _
    simp only [prim_case_ok "get(".data "get" t r ht]
  · rw [hshape]
    have h1 : tagP "tell(".data ('n' :: ('a' :: 's' :: 'k' :: '(' :: (t ++ ')' :: r)))
        = .error ⟨'n' :: ('a' :: 's' :: 'k' :: '(' :: (t ++ ')' :: r)), .Tag⟩ :=
      tagP_cons_ne 't' 'n' _ _ (by decide)
    have h2 : tagP "ask(".data ('n' :: ('a' :: 's' :: 'k' :: '(' :: (t ++ ')' :: r)))
        = .error ⟨'n' :: ('a' :: 's' :: 'k' :: '(' :: (t ++ ')' :: r)), .Tag⟩ :=
      tagP_cons_ne 'a' 'n' _ _ (by decide)
    have h3 : tagP "get(".data ('n' :: ('a' :: 's' :: 'k' :: '(' :: (t ++ ')' :: r)))
        = .error ⟨'n' :: ('a' :: 's' :: 'k' :: '(' :: (t ++ ')' :: r)), .Tag⟩ :=
      tagP_cons_ne 'g' 'n' _ _ (by decide)
    show primitive ('n' :: ('a' :: 's' :: 'k' :: '(' :: (t ++ ')' :: r))) = _
    unfold primitive
    simp only [prim_case_fail _ _ _ h1, prim_case_fail _ _ _ h2, prim_case_fail _ _ _ h3]
    show prim_case "nask(".data "nask" ("nask(".data ++ (t ++ ')' :: r)) = _
    simp only [prim_case_ok "nask(".data "nask" t r ht]

/-- `simple_agent` succeeds when `primitive` does. -/
theorem L_simple (f : Nat) (input rest : List Char) (e : Expr)
    (h : primitive input = .ok (rest, e)) : simple_agent (f + 1) input = .ok (rest, e) := by
  unfold simple_agent
  simp only [h]

/-- `composition_seq` without a following `";"`. -/
theorem L_seq_last (f : Nat) (input rest1 : List Char) (agi : Expr)
    (h : simple_agent f input = .ok (rest1, agi))
    (htag : tagP [';'] rest1 = .error ⟨rest1, .Tag⟩) :
    composition_seq (f + 1) input = .ok (rest1, agi) := by
  unfold composition_seq
  simp only [h, htag]

/-- `composition_seq` on `simple ";" seq`: right-nested node. -/
theorem L_seq_cons (f : Nat) (input rest1 rest2 X : List Char) (agi agii : Expr)
    (h : simple_agent f input = .ok (rest1, agi))
    (htag : tagP [';'] rest1 = .ok rest2)
    (h2 : composition_seq f rest2 = .ok (X, agii)) :
    composition_seq (f + 1) input = .ok (X, .BachtAstAgent ";" agi agii) := by
  unfold composition_seq
  simp only [h, htag, h2]

/-- `composition_para` without a following `"||"`. -/
theorem L_para_last (f : Nat) (input rest1 : List Char) (agi : Expr)
    (h : composition_seq f input = .ok (rest1, agi))
    (htag : tagP ['|', '|'] rest1 = .error ⟨rest1, .Tag⟩) :
    composition_para (f + 1) input = .ok (rest1, agi) := by
  unfold composition_para
  simp only [h, htag]

/-- `composition_para` on `seq "||" para`: right-nested node. -/
theorem L_para_cons (f : Nat) (input rest1 rest2 X : List Char) (agi agii : Expr)
    (h : composition_seq f input = .ok (rest1, agi))
    (htag : tagP ['|', '|'] rest1 = .ok rest2)
    (h2 : composition_para f rest2 = .ok (X, agii)) :
    composition_para (f + 1) input = .ok (X, .BachtAstAgent "||" agi agii) := by
  unfold composition_para
  simp only [h, htag, h2]

/-- `composition_choice` without a following `"+"`. -/
theorem L_choice_last (f : Nat) (input rest1 : List Char) (agi : Expr)
    (h : composition_para f input = .ok (rest1, agi))
    (htag : tagP ['+'] rest1 = .error ⟨rest1, .Tag⟩) :
    composition_choice (f + 1) input = .ok (rest1, agi) := by
  unfold composition_choice
  simp only [h, htag]

/-- `composition_choice` on `para "+" choice`: right-nested node. -/
theorem L_choice_cons (f : Nat) (input rest1 rest2 X : List Char) (agi agii : Expr)
    (h : composition_para f input = .ok (rest1, agi))
    (htag : tagP ['+'] rest1 = .ok rest2)
    (h2 : composition_choice f rest2 = .ok (X, agii)) :
    composition_choice (f + 1) input = .ok (X, .BachtAstAgent "+" agi agii) := by
  unfold composition_choice
  simp only [h, htag, h2]

/-- A primitive sub-agent text instantiates `IsSimpleSubAgent`. -/
theorem sub_prim (pr : String)
    (hpr : pr = "tell" ∨ pr = "ask" ∨ pr = "get" ∨ pr = "nask") (t : List Char)
    (ht : isValidToken t = true) :
    IsSimpleSubAgent (pstr pr t) (.BachtAstPrimitive pr (String.mk t)) := by
  intro r f hf
  obtain ⟨g, rfl⟩ : ∃ g, f = g + 1 := ⟨f - 1, by omega⟩
  exact L_simple g _ _ _ (primitive_pstr pr hpr t r ht)

/-- A parenthesized agent text instantiates `IsSimpleSubAgent`: if the inner
text parses (at the `agent` level) up to the closing parenthesis, the
parenthesized text is a simple sub-agent denoting the inner agent. -/
theorem sub_paren (B : List Char) (A : Expr)
    (hB : ∀ (r : List Char) (f : Nat), 5 * (B.length + 1) ≤ f →
      composition_choice f (B ++ ')' :: r) = .ok ((')' :: r), A)) :
    IsSimpleSubAgent ('(' :: (B ++ [')'])) A := by
  intro r f hf
  simp only [List.length_cons, List.length_append, List.length_singleton] at hf
  obtain ⟨g, rfl⟩ : ∃ g, f = g + 2 := ⟨f - 2, by omega⟩
  have hX : ('(' :: (B ++ [')'])) ++ r = '(' :: (B ++ ')' :: r) := by simp
  rw [hX]
  have hprim : primitive ('(' :: (B ++ ')' :: r)) = .error ⟨'(' :: (B ++ ')' :: r), .Tag⟩ := by
    unfold primitive
    simp only [prim_case_fail _ _ _ (tagP_cons_ne 't' '(' _ _ (by decide)),
      prim_case_fail _ _ _ (tagP_cons_ne 'a' '(' _ _ (by decide)),
      prim_case_fail _ _ _ (tagP_cons_ne 'g' '(' _ _ (by decide)),
      prim_case_fail _ _ _ (tagP_cons_ne 'n' '(' _ _ (by decide))]
  show simple_agent (g + 1 + 1) _ = _
  unfold simple_agent
  simp only [hprim]
  unfold parenthesized_agent
  simp only [show tagP ['('] ('(' :: (B ++ ')' :: r)) = .ok (B ++ ')' :: r) from
    tagP_self ['('] (B ++ ')' :: r)]
  simp only [hB r g (by omega)]
  simp only [show tagP [')'] (')' :: r) = .ok r from tagP_self [')'] r]

/-- Right-associated parse of `S1;S2;S3` over arbitrary simple sub-agents. -/
theorem assoc_seq_parse (S1 S2 S3 : List Char) (P1 P2 P3 : Expr)
    (h1 : IsSimpleSubAgent S1 P1) (h2 : IsSimpleSubAgent S2 P2)
    (h3 : IsSimpleSubAgent S3 P3) :
    parse_agent (S1 ++ (';' :: (S2 ++ (';' :: S3))))
      = .ok (.BachtAstAgent ";" P1 (.BachtAstAgent ";" P2 P3)) := by
  have hseq3 : ∀ f, 5 * (S3.length + 1) + 1 ≤ f →
      composition_seq f S3 = .ok ([], P3) := by
    intro f hf
    obtain ⟨g, rfl⟩ : ∃ g, f = g + 1 := ⟨f - 1, by omega⟩
    refine L_seq_last g _ _ _ ?_ rfl
    have h := h3 [] g (by omega)
    rwa [List.append_nil] at h
  have hseq2 : ∀ f, 5 * (S2.length + 1) + 1 ≤ f → 5 * (S3.length + 1) + 2 ≤ f →
      composition_seq f (S2 ++ (';' :: S3)) = .ok ([], .BachtAstAgent ";" P2 P3) := by
    intro f hf2 hf3
    obtain ⟨g, rfl⟩ : ∃ g, f = g + 1 := ⟨f - 1, by omega⟩
    exact L_seq_cons g _ _ _ _ _ _ (h2 (';' :: S3) g (by omega)) (tagP_self [';'] _)
      (hseq3 g (by omega))
  have hseq1 : ∀ f, 5 * (S1.length + 1) + 1 ≤ f → 5 * (S2.length + 1) + 2 ≤ f →
      5 * (S3.length + 1) + 3 ≤ f →
      composition_seq f (S1 ++ (';' :: (S2 ++ (';' :: S3))))
        = .ok ([], .BachtAstAgent ";" P1 (.BachtAstAgent ";" P2 P3)) := by
    intro f hf1 hf2 hf3
    obtain ⟨g, rfl⟩ : ∃ g, f = g + 1 := ⟨f - 1, by omega⟩
    exact L_seq_cons g _ _ _ _ _ _ (h1 (';' :: (S2 ++ (';' :: S3))) g (by omega))
      (tagP_self [';'] _) (hseq2 g (by omega) (by omega))
  have hchoice : ∀ f, 5 * (S1.length + 1) + 3 ≤ f → 5 * (S2.length + 1) + 4 ≤ f →
      5 * (S3.length + 1) + 5 ≤ f →
      composition_choice f (S1 ++ (';' :: (S2 ++ (';' :: S3))))
        = .ok ([], .BachtAstAgent ";" P1 (.BachtAstAgent ";" P2 P3)) := by
    intro f hf1 hf2 hf3
    obtain ⟨g, rfl⟩ : ∃ g, f = g + 2 := ⟨f - 2, by omega⟩
    exact L_choice_last (g + 1) _ _ _
      (L_para_last g _ _ _ (hseq1 g (by omega) (by omega) (by omega)) rfl) rfl
  unfold parse_agent all_consuming agent
  rw [hchoice (parse_fuel (S1 ++ (';' :: (S2 ++ (';' :: S3)))))
    (by unfold parse_fuel; simp only [List.length_append, List.length_cons]; omega)
    (by unfold parse_fuel; simp only [List.length_append, List.length_cons]; omega)
    (by unfold parse_fuel; simp only [List.length_append, List.length_cons]; omega)]
  simp

/-- Right-associated parse of `S1||S2||S3` over arbitrary simple sub-agents. -/
theorem assoc_para_parse (S1 S2 S3 : List Char) (P1 P2 P3 : Expr)
    (h1 : IsSimpleSubAgent S1 P1) (h2 : IsSimpleSubAgent S2 P2)
    (h3 : IsSimpleSubAgent S3 P3) :
    parse_agent (S1 ++ ('|' :: '|' :: (S2 ++ ('|' :: '|' :: S3))))
      = .ok (.BachtAstAgent "||" P1 (.BachtAstAgent "||" P2 P3)) := by
  have hpara3 : ∀ f, 5 * (S3.length + 1) + 2 ≤ f →
      composition_para f S3 = .ok ([], P3) := by
    intro f hf
    obtain ⟨g, rfl⟩ : ∃ g, f = g + 2 := ⟨f - 2, by omega⟩
    refine L_para_last (g + 1) _ _ _ (L_seq_last g _ _ _ ?_ rfl) rfl
    have h := h3 [] g (by omega)
    rwa [List.append_nil] at h
  have hpara2 : ∀ f, 5 * (S2.length + 1) + 2 ≤ f → 5 * (S3.length + 1) + 3 ≤ f →
      composition_para f (S2 ++ ('|' :: '|' :: S3))
        = .ok ([], .BachtAstAgent "||" P2 P3) := by
    intro f hf2 hf3
    obtain ⟨g, rfl⟩ : ∃ g, f = g + 2 := ⟨f - 2, by omega⟩
    exact L_para_cons (g + 1) _ _ _ _ _ _
      (L_seq_last g _ _ _ (h2 ('|' :: '|' :: S3) g (by omega))
        (tagP_cons_ne ';' '|' [] _ (by decide)))
      (tagP_self ['|', '|'] _) (hpara3 (g + 1) (by omega))
  have hpara1 : ∀ f, 5 * (S1.length + 1) + 2 ≤ f → 5 * (S2.length + 1) + 3 ≤ f →
      5 * (S3.length + 1) + 4 ≤ f →
      composition_para f (S1 ++ ('|' :: '|' :: (S2 ++ ('|' :: '|' :: S3))))
        = .ok ([], .BachtAstAgent "||" P1 (.BachtAstAgent "||" P2 P3)) := by
    intro f hf1 hf2 hf3
    obtain ⟨g, rfl⟩ : ∃ g, f = g + 2 := ⟨f - 2, by omega⟩
    exact L_para_cons (g + 1) _ _ _ _ _ _
      (L_seq_last g _ _ _ (h1 ('|' :: '|' :: (S2 ++ ('|' :: '|' :: S3))) g (by omega))
        (tagP_cons_ne ';' '|' [] _ (by decide)))
      (tagP_self ['|', '|'] _) (hpara2 (g + 1) (by omega) (by omega))
  have hchoice : ∀ f, 5 * (S1.length + 1) + 3 ≤ f → 5 * (S2.length + 1) + 4 ≤ f →
      5 * (S3.length + 1) + 5 ≤ f →
      composition_choice f (S1 ++ ('|' :: '|' :: (S2 ++ ('|' :: '|' :: S3))))
        = .ok ([], .BachtAstAgent "||" P1 (.BachtAstAgent "||" P2 P3)) := by
    intro f hf1 hf2 hf3
    obtain ⟨g, rfl⟩ : ∃ g, f = g + 1 := ⟨f - 1, by omega⟩
    exact L_choice_last g _ _ _ (hpara1 g (by omega) (by omega) (by omega)) rfl
  unfold parse_agent all_consuming agent
  rw [hchoice (parse_fuel (S1 ++ ('|' :: '|' :: (S2 ++ ('|' :: '|' :: S3)))))
    (by unfold parse_fuel; simp only [List.length_append, List.length_cons]; omega)
    (by unfold parse_fuel; simp only [List.length_append, List.length_cons]; omega)
    (by unfold parse_fuel; simp only [List.length_append, List.length_cons]; omega)]
  simp

/-- Right-associated parse of `S1+S2+S3` over arbitrary simple sub-agents. -/
theorem assoc_choice_parse (S1 S2 S3 : List Char) (P1 P2 P3 : Expr)
    (h1 : IsSimpleSubAgent S1 P1) (h2 : IsSimpleSubAgent S2 P2)
    (h3 : IsSimpleSubAgent S3 P3) :
    parse_agent (S1 ++ ('+' :: (S2 ++ ('+' :: S3))))
      = .ok (.BachtAstAgent "+" P1 (.BachtAstAgent "+" P2 P3)) := by
  have hch3 : ∀ f, 5 * (S3.length + 1) + 3 ≤ f →
      composition_choice f S3 = .ok ([], P3) := by
    intro f hf
    obtain ⟨g, rfl⟩ : ∃ g, f = g + 3 := ⟨f - 3, by omega⟩
    refine L_choice_last (g + 2) _ _ _
      (L_para_last (g + 1) _ _ _ (L_seq_last g _ _ _ ?_ rfl) rfl) rfl
    have h := h3 [] g (by omega)
    rwa [List.append_nil] at h
  have hch2 : ∀ f, 5 * (S2.length + 1) + 3 ≤ f → 5 * (S3.length + 1) + 4 ≤ f →
      composition_choice f (S2 ++ ('+' :: S3))
        = .ok ([], .BachtAstAgent "+" P2 P3) := by
    intro f hf2 hf3
    obtain ⟨g, rfl⟩ : ∃ g, f = g + 3 := ⟨f - 3, by omega⟩
    exact L_choice_cons (g + 2) _ _ _ _ _ _
      (L_para_last (g + 1) _ _ _
        (L_seq_last g _ _ _ (h2 ('+' :: S3) g (by omega))
          (tagP_cons_ne ';' '+' [] _ (by decide)))
        (tagP_cons_ne '|' '+' ['|'] _ (by decide)))
      (tagP_self ['+'] _) (hch3 (g + 2) (by omega))
  have hch1 : ∀ f, 5 * (S1.length + 1) + 3 ≤ f → 5 * (S2.length + 1) + 4 ≤ f →
      5 * (S3.length + 1) + 5 ≤ f →
      composition_choice f (S1 ++ ('+' :: (S2 ++ ('+' :: S3))))
        = .ok ([], .BachtAstAgent "+" P1 (.BachtAstAgent "+" P2 P3)) := by
    intro f hf1 hf2 hf3
    obtain ⟨g, rfl⟩ : ∃ g, f = g + 3 := ⟨f - 3, by omega⟩
    exact L_choice_cons (g + 2) _ _ _ _ _ _
      (L_para_last (g + 1) _ _ _
        (L_seq_last g _ _ _ (h1 ('+' :: (S2 ++ ('+' :: S3))) g (by omega))
          (tagP_cons_ne ';' '+' [] _ (by decide)))
        (tagP_cons_ne '|' '+' ['|'] _ (by decide)))
      (tagP_self ['+'] _) (hch2 (g + 2) (by omega) (by omega))
  unfold parse_agent all_consuming agent
  rw [hch1 (parse_fuel (S1 ++ ('+' :: (S2 ++ ('+' :: S3)))))
    (by unfold parse_fuel; simp only [List.length_append, List.length_cons]; omega)
    (by unfold parse_fuel; simp only [List.length_append, List.length_cons]; omega)
    (by unfold parse_fuel; simp only [List.length_append, List.length_cons]; omega)]
  simp

/-- Parse of `S1;S2||S3+S4` over arbitrary simple sub-agents: `+` binds
loosest, then `||`, then `;` tightest. -/
theorem precedence_parse (S1 S2 S3 S4 : List Char) (P1 P2 P3 P4 : Expr)
    (h1 : IsSimpleSubAgent S1 P1) (h2 : IsSimpleSubAgent S2 P2)
    (h3 : IsSimpleSubAgent S3 P3) (h4 : IsSimpleSubAgent S4 P4) :
    parse_agent (S1 ++ (';' :: (S2 ++ ('|' :: '|' :: (S3 ++ ('+' :: S4))))))
      = .ok (.BachtAstAgent "+" (.BachtAstAgent "||" (.BachtAstAgent ";" P1 P2) P3) P4) := by
  have hch4 : ∀ f, 5 * (S4.length + 1) + 3 ≤ f →
      composition_choice f S4 = .ok ([], P4) := by
    intro f hf
    obtain ⟨g, rfl⟩ : ∃ g, f = g + 3 := ⟨f - 3, by omega⟩
    refine L_choice_last (g + 2) _ _ _
      (L_para_last (g + 1) _ _ _ (L_seq_last g _ _ _ ?_ rfl) rfl) rfl
    have h := h4 [] g (by omega)
    rwa [List.append_nil] at h
  have hpara3 : ∀ f, 5 * (S3.length + 1) + 2 ≤ f →
      composition_para f (S3 ++ ('+' :: S4)) = .ok ('+' :: S4, P3) := by
    intro f hf
    obtain ⟨g, rfl⟩ : ∃ g, f = g + 2 := ⟨f - 2, by omega⟩
    exact L_para_last (g + 1) _ _ _
      (L_seq_last g _ _ _ (h3 ('+' :: S4) g (by omega))
        (tagP_cons_ne ';' '+' [] _ (by decide)))
      (tagP_cons_ne '|' '+' ['|'] _ (by decide))
  have hseq2 : ∀ f, 5 * (S2.length + 1) + 1 ≤ f →
      composition_seq f (S2 ++ ('|' :: '|' :: (S3 ++ ('+' :: S4))))
        = .ok ('|' :: '|' :: (S3 ++ ('+' :: S4)), P2) := by
    intro f hf
    obtain ⟨g, rfl⟩ : ∃ g, f = g + 1 := ⟨f - 1, by omega⟩
    exact L_seq_last g _ _ _ (h2 ('|' :: '|' :: (S3 ++ ('+' :: S4))) g (by omega))
      (tagP_cons_ne ';' '|' [] _ (by decide))
  have hseq12 : ∀ f, 5 * (S1.length + 1) + 1 ≤ f → 5 * (S2.length + 1) + 2 ≤ f →
      composition_seq f (S1 ++ (';' :: (S2 ++ ('|' :: '|' :: (S3 ++ ('+' :: S4))))))
        = .ok ('|' :: '|' :: (S3 ++ ('+' :: S4)), .BachtAstAgent ";" P1 P2) := by
    intro f hf1 hf2
    obtain ⟨g, rfl⟩ : ∃ g, f = g + 1 := ⟨f - 1, by omega⟩
    exact L_seq_cons g _ _ _ _ _ _
      (h1 (';' :: (S2 ++ ('|' :: '|' :: (S3 ++ ('+' :: S4))))) g (by omega))
      (tagP_self [';'] _) (hseq2 g (by omega))
  have hpara123 : ∀ f, 5 * (S1.length + 1) + 2 ≤ f → 5 * (S2.length + 1) + 3 ≤ f →
      5 * (S3.length + 1) + 3 ≤ f →
      composition_para f (S1 ++ (';' :: (S2 ++ ('|' :: '|' :: (S3 ++ ('+' :: S4))))))
        = .ok ('+' :: S4, .BachtAstAgent "||" (.BachtAstAgent ";" P1 P2) P3) := by
    intro f hf1 hf2 hf3
    obtain ⟨g, rfl⟩ : ∃ g, f = g + 1 := ⟨f - 1, by omega⟩
    exact L_para_cons g _ _ _ _ _ _ (hseq12 g (by omega) (by omega))
      (tagP_self ['|', '|'] _) (hpara3 g (by omega))
  have hfinal : ∀ f, 5 * (S1.length + 1) + 3 ≤ f → 5 * (S2.length + 1) + 4 ≤ f →
      5 * (S3.length + 1) + 4 ≤ f → 5 * (S4.length + 1) + 4 ≤ f →
      composition_choice f (S1 ++ (';' :: (S2 ++ ('|' :: '|' :: (S3 ++ ('+' :: S4))))))
        = .ok ([], .BachtAstAgent "+" (.BachtAstAgent "||" (.BachtAstAgent ";" P1 P2) P3) P4) := by
    intro f hf1 hf2 hf3 hf4
    obtain ⟨g, rfl⟩ : ∃ g, f = g + 1 := ⟨f - 1, by omega⟩
    exact L_choice_cons g _ _ _ _ _ _ (hpara123 g (by omega) (by omega) (by omega))
      (tagP_self ['+'] _) (hch4 g (by omega))
  unfold parse_agent all_consuming agent
  rw [hfinal (parse_fuel (S1 ++ (';' :: (S2 ++ ('|' :: '|' :: (S3 ++ ('+' :: S4)))))))
    (by unfold parse_fuel; simp only [List.length_append, List.length_cons]; omega)
    (by unfold parse_fuel; simp only [List.length_append, List.length_cons]; omega)
    (by unfold parse_fuel; simp only [List.length_append, List.length_cons]; omega)
    (by unfold parse_fuel; simp only [List.length_append, List.length_cons]; omega)]
  simp

/-- C4: for all simple sub-agents `p`, `q`, `r` — texts, primitive or
parenthesized (around an arbitrary inner agent), that `simple_agent`
accepts as an atom denoting some expression — every binary operator parses
`p op q op r` right-associatively as `Op(op, p, Op(op, q, r))`, and
precedence is `+` lowest, then `||`, then `;` highest: `p;q||r+s` parses
as `Op("+", Op("||", Op(";", p, q), r), s)`. -/
theorem C4_grammar_assoc_precedence :
    (∀ (S1 S2 S3 : List Char) (P1 P2 P3 : Expr),
      IsSimpleSubAgent S1 P1 → IsSimpleSubAgent S2 P2 → IsSimpleSubAgent S3 P3 →
      parse_agent (S1 ++ (';' :: (S2 ++ (';' :: S3))))
        = .ok (.BachtAstAgent ";" P1 (.BachtAstAgent ";" P2 P3))
      ∧ parse_agent (S1 ++ ('|' :: '|' :: (S2 ++ ('|' :: '|' :: S3))))
        = .ok (.BachtAstAgent "||" P1 (.BachtAstAgent "||" P2 P3))
      ∧ parse_agent (S1 ++ ('+' :: (S2 ++ ('+' :: S3))))
        = .ok (.BachtAstAgent "+" P1 (.BachtAstAgent "+" P2 P3)))
  ∧ (∀ (S1 S2 S3 S4 : List Char) (P1 P2 P3 P4 : Expr),
      IsSimpleSubAgent S1 P1 → IsSimpleSubAgent S2 P2 →
      IsSimpleSubAgent S3 P3 → IsSimpleSubAgent S4 P4 →
      parse_agent (S1 ++ (';' :: (S2 ++ ('|' :: '|' :: (S3 ++ ('+' :: S4))))))
        = .ok (.BachtAstAgent "+" (.BachtAstAgent "||" (.BachtAstAgent ";" P1 P2) P3) P4)) :=
  ⟨fun S1 S2 S3 P1 P2 P3 h1 h2 h3 =>
    ⟨assoc_seq_parse S1 S2 S3 P1 P2 P3 h1 h2 h3,
     assoc_para_parse S1 S2 S3 P1 P2 P3 h1 h2 h3,
     assoc_choice_parse S1 S2 S3 P1 P2 P3 h1 h2 h3⟩,
   fun S1 S2 S3 S4 P1 P2 P3 P4 h1 h2 h3 h4 =>
    precedence_parse S1 S2 S3 S4 P1 P2 P3 P4 h1 h2 h3 h4⟩

/-- Witness for C4 with a parenthesized compound sub-agent
`(tell(x)||tell(y))` alongside primitive ones, in an associativity
instance and a precedence instance. -/
theorem C4_grammar_witness :
    parse "(tell(x)||tell(y));tell(a);tell(b)"
      = .ok (.BachtAstAgent ";"
          (.BachtAstAgent "||" (.BachtAstPrimitive "tell" "x")
            (.BachtAstPrimitive "tell" "y"))
          (.BachtAstAgent ";" (.BachtAstPrimitive "tell" "a")
            (.BachtAstPrimitive "tell" "b")))
  ∧ parse "tell(a);tell(b)||(tell(x)||tell(y))+tell(c)"
      = .ok (.BachtAstAgent "+"
          (.BachtAstAgent "||"
            (.BachtAstAgent ";" (.BachtAstPrimitive "tell" "a")
              (.BachtAstPrimitive "tell" "b"))
            (.BachtAstAgent "||" (.BachtAstPrimitive "tell" "x")
              (.BachtAstPrimitive "tell" "y")))
          (.BachtAstPrimitive "tell" "c")) := by
  have hB : ∀ (r : List Char) (f : Nat), 5 * ("tell(x)||tell(y)".data.length + 1) ≤ f →
      composition_choice f ("tell(x)||tell(y)".data ++ ')' :: r)
        = .ok ((')' :: r), .BachtAstAgent "||" (.BachtAstPrimitive "tell" "x")
            (.BachtAstPrimitive "tell" "y")) := by
    intro r f hf
    have hlen : "tell(x)||tell(y)".data.length = 16 := rfl
    rw [hlen] at hf
    obtain ⟨g, rfl⟩ : ∃ g, f = g + 5 := ⟨f - 5, by omega⟩
    show composition_choice (g + 5)
      (pstr "tell" ['x'] ++ ('|' :: '|' :: (pstr "tell" ['y'] ++ (')' :: r)))) = _
    have hy : composition_para (g + 3) (pstr "tell" ['y'] ++ (')' :: r))
        = .ok (')' :: r, .BachtAstPrimitive "tell" (String.mk ['y'])) :=
      L_para_last (g + 2) _ _ _
        (L_seq_last (g + 1) _ _ _
          (L_simple g _ _ _ (primitive_pstr "tell" (Or.inl rfl) ['y'] _ (by decide)))
          (tagP_cons_ne ';' ')' [] _ (by decide)))
        (tagP_cons_ne '|' ')' ['|'] _ (by decide))
    have hx : composition_para (g + 4)
        (pstr "tell" ['x'] ++ ('|' :: '|' :: (pstr "tell" ['y'] ++ (')' :: r))))
        = .ok (')' :: r, .BachtAstAgent "||" (.BachtAstPrimitive "tell" (String.mk ['x']))
            (.BachtAstPrimitive "tell" (String.mk ['y']))) :=
      L_para_cons (g + 3) _ _ _ _ _ _
        (L_seq_last (g + 2) _ _ _
          (L_simple (g + 1) _ _ _ (primitive_pstr "tell" (Or.inl rfl) ['x'] _ (by decide)))
          (tagP_cons_ne ';' '|' [] _ (by decide)))
        (tagP_self ['|', '|'] _) hy
    exact L_choice_last (g + 4) _ _ _ hx (tagP_cons_ne '+' ')' [] _ (by decide))
  have hpar : IsSimpleSubAgent "(tell(x)||tell(y))".data
      (.BachtAstAgent "||" (.BachtAstPrimitive "tell" "x")
        (.BachtAstPrimitive "tell" "y")) :=
    sub_paren "tell(x)||tell(y)".data
      (.BachtAstAgent "||" (.BachtAstPrimitive "tell" "x")
        (.BachtAstPrimitive "tell" "y")) hB
  have hta : IsSimpleSubAgent (pstr "tell" ['a'])
      (.BachtAstPrimitive "tell" (String.mk ['a'])) :=
    sub_prim "tell" (Or.inl rfl) ['a'] (by decide)
  have htb : IsSimpleSubAgent (pstr "tell" ['b'])
      (.BachtAstPrimitive "tell" (String.mk ['b'])) :=
    sub_prim "tell" (Or.inl rfl) ['b'] (by decide)
  have htc : IsSimpleSubAgent (pstr "tell" ['c'])
      (.BachtAstPrimitive "tell" (String.mk ['c'])) :=
    sub_prim "tell" (Or.inl rfl) ['c'] (by decide)
  refine ⟨?_, ?_⟩
  · exact (C4_grammar_assoc_precedence.1 "(tell(x)||tell(y))".data (pstr "tell" ['a'])
      (pstr "tell" ['b']) _ _ _ hpar hta htb).1
  · exact C4_grammar_assoc_precedence.2 (pstr "tell" ['a']) (pstr "tell" ['b'])
      "(tell(x)||tell(y))".data (pstr "tell" ['c']) _ _ _ _ hta htb hpar htc

/-- C5 (amended): `parse_agent` succeeds only when the agent grammar
consumed the entire input; when the agent parser succeeds on a proper
prefix leaving a nonempty remainder, `parse_agent` returns the trailing
input error (nom `Eof` at the remainder, the code's representation of the
spec's `Trailing`); the empty input yields a parse error (the `Tag`
failure at position 0, the code's representation of the spec's `Empty` —
there is no distinct variant), never a successful AST.  An input that is
a valid agent followed by trailing characters may however parse
successfully as a different, longer agent. -/
theorem C5_entire_input :
    (∀ (input : List Char) (e : Expr), parse_agent input = .ok e →
       agent (parse_fuel input) input = .ok ([], e))
  ∧ (∀ (input rest : List Char) (e : Expr),
       agent (parse_fuel input) input = .ok (rest, e) → rest ≠ [] →
       parse_agent input = .error ⟨rest, .Eof⟩)
  ∧ parse "" = .error ⟨[], .Tag⟩ := by
  refine ⟨?_, ?_, rfl⟩
  · intro input e h
    unfold parse_agent all_consuming at h
    rcases hag : agent (parse_fuel input) input with er | ⟨rest, ex⟩ <;> rw [hag] at h
    · simp at h
    · by_cases hrest : rest = []
      · subst hrest
        simp at h
        simp [hag, h]
      · simp [hrest] at h
  · intro input rest e h hne
    unfold parse_agent all_consuming
    rw [h]
    simp [hne]

/-- Witness for C5 on `tell(a)` and on the trailing input `tell(a)@`. -/
theorem C5_entire_input_witness :
    agent (parse_fuel "tell(a)".data) "tell(a)".data = .ok ([], .BachtAstPrimitive "tell" "a")
  ∧ parse_agent "tell(a)@".data = .error ⟨['@'], .Eof⟩ :=
  ⟨C5_entire_input.1 "tell(a)".data (.BachtAstPrimitive "tell" "a") rfl,
   C5_entire_input.2.1 "tell(a)@".data ['@'] (.BachtAstPrimitive "tell" "a") rfl (by decide)⟩

/-- Counterexample for C5 as stated: `tell(a);tell(b)` is a valid agent
(`tell(a)`) followed by trailing characters (`;tell(b)`), yet `parse`
returns a successful AST, not a trailing error. -/
theorem C5_trailing_counterexample :
    parse "tell(a)" = .ok (.BachtAstPrimitive "tell" "a")
  ∧ "tell(a);tell(b)" = "tell(a)" ++ ";tell(b)"
  ∧ (";tell(b)" : String) ≠ ""
  ∧ parse "tell(a);tell(b)"
      = .ok (.BachtAstAgent ";" (.BachtAstPrimitive "tell" "a") (.BachtAstPrimitive "tell" "b")) :=
  ⟨rfl, rfl, by decide, rfl⟩

/-- A successful `delimited` branch returns a primitive node of its
keyword. -/
theorem prim_case_shape (kw : List Char) (name : String) (input r : List Char) (e : Expr)
    (h : prim_case kw name input = .ok (r, e)) : ∃ tok, e = .BachtAstPrimitive name tok := by
  unfold prim_case at h
  repeat' split at h
  all_goals simp_all
  exact ⟨_, h.2.symm⟩

/-- Every AST `primitive` produces is a well-formed primitive node. -/
theorem primitive_wf (input rest : List Char) (e : Expr)
    (h : primitive input = .ok (rest, e)) : AgentWF e = true := by
  unfold primitive at h
  repeat' split at h
  all_goals simp_all
  all_goals first
  | (rename_i heq
     obtain ⟨tok, rfl⟩ := prim_case_shape _ _ _ _ _ heq
     simp [AgentWF])
  | (obtain ⟨tok, rfl⟩ := prim_case_shape _ _ _ _ _ h
     simp [AgentWF])

/-- Every AST any grammar level produces is well-formed: operators among
`;`/`||`/`+`, primitives among the four, and never the empty agent. -/
theorem parser_wf : ∀ fuel : Nat,
    (∀ input rest e, composition_choice fuel input = .ok (rest, e) → AgentWF e = true)
  ∧ (∀ input rest e, composition_para fuel input = .ok (rest, e) → AgentWF e = true)
  ∧ (∀ input rest e, composition_seq fuel input = .ok (rest, e) → AgentWF e = true)
  ∧ (∀ input rest e, simple_agent fuel input = .ok (rest, e) → AgentWF e = true)
  ∧ (∀ input rest e, parenthesized_agent fuel input = .ok (rest, e) → AgentWF e = true) := by
  intro fuel
  induction fuel with
  | zero =>
    refine ⟨?_, ?_, ?_, ?_, ?_⟩ <;> intro input rest e h <;>
      simp [composition_choice, composition_para, composition_seq, simple_agent,
        parenthesized_agent] at h
  | succ fuel ih =>
    obtain ⟨ihc, ihp, ihs, ihsi, ihpar⟩ := ih
    refine ⟨?_, ?_, ?_, ?_, ?_⟩
    · intro input rest e h
      unfold composition_choice at h
      repeat' split at h
      all_goals simp_all
      all_goals obtain ⟨h1, h2⟩ := h
      all_goals subst h2
      all_goals first
      | exact ihp _ _ _ (by assumption)
      | (simp [AgentWF]
         exact ⟨ihp _ _ _ (by assumption), ihc _ _ _ (by assumption)⟩)
    · intro input rest e h
      unfold composition_para at h
      repeat' split at h
      all_goals simp_all
      all_goals obtain ⟨h1, h2⟩ := h
      all_goals subst h2
      all_goals first
      | exact ihs _ _ _ (by assumption)
      | (simp [AgentWF]
         exact ⟨ihs _ _ _ (by assumption), ihp _ _ _ (by assumption)⟩)
    · intro input rest e h
      unfold composition_seq at h
      repeat' split at h
      all_goals simp_all
      all_goals obtain ⟨h1, h2⟩ := h
      all_goals subst h2
      all_goals first
      | exact ihsi _ _ _ (by assumption)
      | (simp [AgentWF]
         exact ⟨ihsi _ _ _ (by assumption), ihs _ _ _ (by assumption)⟩)
    · intro input rest e h
      unfold simple_agent at h
      split at h
      · rename_i x heq
        simp at h
        subst h
        exact primitive_wf _ _ _ heq
      · exact ihpar _ _ _ h
    · intro input rest e h
      unfold parenthesized_agent at h
      repeat' split at h
      all_goals simp_all
      all_goals exact ihc _ _ _ (by assumption)

/-- `exec_primitive` never errors on the four known primitive names. -/
theorem exec_primitive_known (sigma : BachTStore) (p t : String)
    (hp : p = "tell" ∨ p = "ask" ∨ p = "get" ∨ p = "nask") :
    ∃ b sigma', exec_primitive sigma p t = .ok (b, sigma') := by
  rcases hp with rfl | rfl | rfl | rfl
  · exact ⟨(BachTStore.tell sigma t).1, (BachTStore.tell sigma t).2, by simp [exec_primitive]⟩
  · exact ⟨BachTStore.ask sigma t, sigma, by simp [exec_primitive]⟩
  · exact ⟨(BachTStore.get sigma t).1, (BachTStore.get sigma t).2, by simp [exec_primitive]⟩
  · exact ⟨BachTStore.nask sigma t, sigma, by simp [exec_primitive]⟩

/-- On a well-formed agent `run_one` never reaches the unknown-agent or
unknown-primitive branch, and its residual is either the empty agent (on
progress) or again well-formed. -/
theorem run_one_wf (ag : Expr) : ∀ (c : Nat → Bool) (sigma : BachTStore) (k : Nat),
    AgentWF ag = true →
    ∃ b r sigma' k' tr, run_one c ag sigma k = .ok ((b, r), sigma', k', tr)
      ∧ (b = true → (r = .BachtAstEmptyAgent ∨ AgentWF r = true))
      ∧ (b = false → AgentWF r = true) := by
  induction ag with
  | BachtAstEmptyAgent =>
    intro c sigma k hwf
    simp [AgentWF] at hwf
  | BachtAstPrimitive p t =>
    intro c sigma k hwf
    have hp : p = "tell" ∨ p = "ask" ∨ p = "get" ∨ p = "nask" := by
      have h := hwf
      simp [AgentWF] at h
      tauto
    obtain ⟨b, sigma', hexec⟩ := exec_primitive_known sigma p t hp
    cases b
    · exact ⟨false, .BachtAstPrimitive p t, sigma', k, [(p, t, false)],
        by unfold run_one; rw [hexec], by simp, fun _ => hwf⟩
    · exact ⟨true, .BachtAstEmptyAgent, sigma', k, [(p, t, true)],
        by unfold run_one; rw [hexec], fun _ => Or.inl rfl, by simp⟩
  | BachtAstAgent op l rr ihl ihr =>
    intro c sigma k hwf
    have hwf2 := hwf
    simp only [AgentWF, Bool.and_eq_true, Bool.or_eq_true, beq_iff_eq] at hwf2
    obtain ⟨⟨hops, hwl⟩, hwr⟩ := hwf2
    rcases hops with (rfl | rfl) | rfl
    · -- ";"
      obtain ⟨b1, r1, s1, k1, tr1, hstep, ht1, hf1⟩ := ihl c sigma k hwl
      cases b1
      · have hw1 := hf1 rfl
        exact ⟨false, .BachtAstAgent ";" r1 rr, s1, k1, tr1,
          by unfold run_one; simp [hstep], by simp,
          fun _ => by simp [AgentWF, hw1, hwr]⟩
      · rcases ht1 rfl with rfl | hw1
        · exact ⟨true, rr, s1, k1, tr1, by unfold run_one; simp [hstep],
            fun _ => Or.inr hwr, by simp⟩
        · have hnode : AgentWF (.BachtAstAgent ";" r1 rr) = true := by
            simp [AgentWF, hw1, hwr]
          have hne : r1 ≠ .BachtAstEmptyAgent := by
            intro h
            rw [h] at hw1
            simp [AgentWF] at hw1
          refine ⟨true, .BachtAstAgent ";" r1 rr, s1, k1, tr1, ?_,
            fun _ => Or.inr hnode, by simp⟩
          unfold run_one
          rcases r1 with _ | ⟨pp, tt⟩ | ⟨oo, aa, bb⟩
          · exact absurd rfl hne
          · simp [hstep]
          · simp [hstep]
    · -- "||"
      cases hc : c k
      · obtain ⟨b2, r2, s2, k2, tr2, hstep2, ht2, hf2⟩ := ihr c sigma (k + 1) hwr
        cases b2
        · have hw2 := hf2 rfl
          obtain ⟨b1, r1, s1, k1, tr1, hstep1, ht1, hf1⟩ := ihl c s2 k2 hwl
          cases b1
          · have hw1 := hf1 rfl
            refine ⟨false, .BachtAstAgent "||" r2 r1, s1, k1, tr2 ++ tr1, ?_, by simp,
              fun _ => by simp [AgentWF, hw1, hw2]⟩
            unfold run_one
            simp [hc, hstep2, hstep1]
          · rcases ht1 rfl with rfl | hw1
            · refine ⟨true, r2, s1, k1, tr2 ++ tr1, ?_, fun _ => Or.inr hw2, by simp⟩
              unfold run_one
              simp [hc, hstep2, hstep1]
            · have hnode : AgentWF (.BachtAstAgent "||" r2 r1) = true := by
                simp [AgentWF, hw1, hw2]
              have hne : r1 ≠ .BachtAstEmptyAgent := by
                intro h
                rw [h] at hw1
                simp [AgentWF] at hw1
              refine ⟨true, .BachtAstAgent "||" r2 r1, s1, k1, tr2 ++ tr1, ?_,
                fun _ => Or.inr hnode, by simp⟩
              unfold run_one
              rcases r1 with _ | ⟨pp, tt⟩ | ⟨oo, aa, bb⟩
              · exact absurd rfl hne
              · simp [hc, hstep2, hstep1]
              · simp [hc, hstep2, hstep1]
        · rcases ht2 rfl with rfl | hw2
          · refine ⟨true, l, s2, k2, tr2, ?_, fun _ => Or.inr hwl, by simp⟩
            unfold run_one
            simp [hc, hstep2]
          · have hnode : AgentWF (.BachtAstAgent "||" r2 l) = true := by
              simp [AgentWF, hw2, hwl]
            have hne : r2 ≠ .BachtAstEmptyAgent := by
              intro h
              rw [h] at hw2
              simp [AgentWF] at hw2
            refine ⟨true, .BachtAstAgent "||" r2 l, s2, k2, tr2, ?_,
              fun _ => Or.inr hnode, by simp⟩
            unfold run_one
            rcases r2 with _ | ⟨pp, tt⟩ | ⟨oo, aa, bb⟩
            · exact absurd rfl hne
            · simp [hc, hstep2]
            · simp [hc, hstep2]
      · obtain ⟨b1, r1, s1, k1, tr1, hstep1, ht1, hf1⟩ := ihl c sigma (k + 1) hwl
        cases b1
        · have hw1 := hf1 rfl
          obtain ⟨b2, r2, s2, k2, tr2, hstep2, ht2, hf2⟩ := ihr c s1 k1 hwr
          cases b2
          · have hw2 := hf2 rfl
            refine ⟨false, .BachtAstAgent "||" r1 r2, s2, k2, tr1 ++ tr2, ?_, by simp,
              fun _ => by simp [AgentWF, hw1, hw2]⟩
            unfold run_one
            simp [hc, hstep1, hstep2]
          · rcases ht2 rfl with rfl | hw2
            · refine ⟨true, r1, s2, k2, tr1 ++ tr2, ?_, fun _ => Or.inr hw1, by simp⟩
              unfold run_one
              simp [hc, hstep1, hstep2]
            · have hnode : AgentWF (.BachtAstAgent "||" r1 r2) = true := by
                simp [AgentWF, hw1, hw2]
              have hne : r2 ≠ .BachtAstEmptyAgent := by
                intro h
                rw [h] at hw2
                simp [AgentWF] at hw2
              refine ⟨true, .BachtAstAgent "||" r1 r2, s2, k2, tr1 ++ tr2, ?_,
                fun _ => Or.inr hnode, by simp⟩
              unfold run_one
              rcases r2 with _ | ⟨pp, tt⟩ | ⟨oo, aa, bb⟩
              · exact absurd rfl hne
              · simp [hc, hstep1, hstep2]
              · simp [hc, hstep1, hstep2]
        · rcases ht1 rfl with rfl | hw1
          · refine ⟨true, rr, s1, k1, tr1, ?_, fun _ => Or.inr hwr, by simp⟩
            unfold run_one
            simp [hc, hstep1]
          · have hnode : AgentWF (.BachtAstAgent "||" r1 rr) = true := by
              simp [AgentWF, hw1, hwr]
            have hne : r1 ≠ .BachtAstEmptyAgent := by
              intro h
              rw [h] at hw1
              simp [AgentWF] at hw1
            refine ⟨true, .BachtAstAgent "||" r1 rr, s1, k1, tr1, ?_,
              fun _ => Or.inr hnode, by simp⟩
            unfold run_one
            rcases r1 with _ | ⟨pp, tt⟩ | ⟨oo, aa, bb⟩
            · exact absurd rfl hne
            · simp [hc, hstep1]
            · simp [hc, hstep1]
    · -- "+"
      cases hc : c k
      · obtain ⟨b2, r2, s2, k2, tr2, hstep2, ht2, hf2⟩ := ihr c sigma (k + 1) hwr
        cases b2
        · have hw2 := hf2 rfl
          obtain ⟨b1, r1, s1, k1, tr1, hstep1, ht1, hf1⟩ := ihl c s2 k2 hwl
          cases b1
          · have hw1 := hf1 rfl
            refine ⟨false, .BachtAstAgent "+" r2 r1, s1, k1, tr2 ++ tr1, ?_, by simp,
              fun _ => by simp [AgentWF, hw1, hw2]⟩
            unfold run_one
            simp [hc, hstep2, hstep1]
          · rcases ht1 rfl with rfl | hw1
            · refine ⟨true, .BachtAstEmptyAgent, s1, k1, tr2 ++ tr1, ?_,
                fun _ => Or.inl rfl, by simp⟩
              unfold run_one
              simp [hc, hstep2, hstep1]
            · have hne : r1 ≠ .BachtAstEmptyAgent := by
                intro h
                rw [h] at hw1
                simp [AgentWF] at hw1
              refine ⟨true, r1, s1, k1, tr2 ++ tr1, ?_, fun _ => Or.inr hw1, by simp⟩
              unfold run_one
              rcases r1 with _ | ⟨pp, tt⟩ | ⟨oo, aa, bb⟩
              · exact absurd rfl hne
              · simp [hc, hstep2, hstep1]
              · simp [hc, hstep2, hstep1]
        · rcases ht2 rfl with rfl | hw2
          · refine ⟨true, .BachtAstEmptyAgent, s2, k2, tr2, ?_, fun _ => Or.inl rfl, by simp⟩
            unfold run_one
            simp [hc, hstep2]
          · have hne : r2 ≠ .BachtAstEmptyAgent := by
              intro h
              rw [h] at hw2
              simp [AgentWF] at hw2
            refine ⟨true, r2, s2, k2, tr2, ?_, fun _ => Or.inr hw2, by simp⟩
            unfold run_one
            rcases r2 with _ | ⟨pp, tt⟩ | ⟨oo, aa, bb⟩
            · exact absurd rfl hne
            · simp [hc, hstep2]
            · simp [hc, hstep2]
      · obtain ⟨b1, r1, s1, k1, tr1, hstep1, ht1, hf1⟩ := ihl c sigma (k + 1) hwl
        cases b1
        · have hw1 := hf1 rfl
          obtain ⟨b2, r2, s2, k2, tr2, hstep2, ht2, hf2⟩ := ihr c s1 k1 hwr
          cases b2
          · have hw2 := hf2 rfl
            refine ⟨false, .BachtAstAgent "+" r1 r2, s2, k2, tr1 ++ tr2, ?_, by simp,
              fun _ => by simp [AgentWF, hw1, hw2]⟩
            unfold run_one
            simp [hc, hstep1, hstep2]
          · rcases ht2 rfl with rfl | hw2
            · refine ⟨true, .BachtAstEmptyAgent, s2, k2, tr1 ++ tr2, ?_,
                fun _ => Or.inl rfl, by simp⟩
              unfold run_one
              simp [hc, hstep1, hstep2]
            · have hne : r2 ≠ .BachtAstEmptyAgent := by
                intro h
                rw [h] at hw2
                simp [AgentWF] at hw2
              refine ⟨true, r2, s2, k2, tr1 ++ tr2, ?_, fun _ => Or.inr hw2, by simp⟩
              unfold run_one
              rcases r2 with _ | ⟨pp, tt⟩ | ⟨oo, aa, bb⟩
              · exact absurd rfl hne
              · simp [hc, hstep1, hstep2]
              · simp [hc, hstep1, hstep2]
        · rcases ht1 rfl with rfl | hw1
          · refine ⟨true, .BachtAstEmptyAgent, s1, k1, tr1, ?_, fun _ => Or.inl rfl, by simp⟩
            unfold run_one
            simp [hc, hstep1]
          · have hne : r1 ≠ .BachtAstEmptyAgent := by
              intro h
              rw [h] at hw1
              simp [AgentWF] at hw1
            refine ⟨true, r1, s1, k1, tr1, ?_, fun _ => Or.inr hw1, by simp⟩
            unfold run_one
            rcases r1 with _ | ⟨pp, tt⟩ | ⟨oo, aa, bb⟩
            · exact absurd rfl hne
            · simp [hc, hstep1]
            · simp [hc, hstep1]

/-- The run loop never reaches the unknown-agent or unknown-primitive
branch when started on the empty agent or a well-formed agent. -/
theorem bacht_exec_all_no_error :
    ∀ (fuel : Nat) (ag : Expr) (c : Nat → Bool) (sigma : BachTStore) (k : Nat),
      (ag = .BachtAstEmptyAgent ∨ AgentWF ag = true) →
      ∀ err : SimError, bacht_exec_all c ag sigma k fuel ≠ some (.error err) := by
  intro fuel
  induction fuel with
  | zero => intro ag c sigma k hag err; simp [bacht_exec_all]
  | succ fuel ih =>
    intro ag c sigma k hag err
    unfold bacht_exec_all
    rcases hag with rfl | hwf
    · simp
    · have hne : ag ≠ .BachtAstEmptyAgent := by
        intro h
        rw [h] at hwf
        simp [AgentWF] at hwf
      rw [if_neg hne]
      obtain ⟨b, r, s', k', tr, hstep, ht, hf⟩ := run_one_wf ag c sigma k hwf
      rw [hstep]
      cases b
      · simp
      · rcases hres : bacht_exec_all c r s' k' fuel with _ | e2
        · simp [hres]
        · rcases e2 with e2 | ⟨b2, s2, tr2⟩
          · exact absurd hres (ih r c s' k' (ht rfl) e2)
          · simp [hres]

/-- C10: every AST `parse_agent` accepts is well-formed (operators only
`;`/`||`/`+`, primitives only `tell`/`ask`/`get`/`nask`, no empty agent),
and consequently running a parse-produced agent can never reach `run_one`'s
unknown-agent panic branch or `exec_primitive`'s unknown-primitive error
branch: the run never returns a `SimError`. -/
theorem C10_parse_safe :
    (∀ (input : List Char) (e : Expr), parse_agent input = .ok e → AgentWF e = true)
  ∧ (∀ (input : List Char) (e : Expr), parse_agent input = .ok e →
      ∀ (c : Nat → Bool) (sigma : BachTStore) (k fuel : Nat) (err : SimError),
        bacht_exec_all c e sigma k fuel ≠ some (.error err)) := by
  have hwf : ∀ (input : List Char) (e : Expr), parse_agent input = .ok e → AgentWF e = true := by
    intro input e h
    unfold parse_agent all_consuming at h
    rcases hag : agent (parse_fuel input) input with er | ⟨rest, ex⟩ <;> rw [hag] at h
    · simp at h
    · by_cases hrest : rest = []
      · subst hrest
        simp at h
        subst h
        exact (parser_wf (parse_fuel input)).1 _ _ _ hag
      · simp [hrest] at h
  exact ⟨hwf, fun input e h c sigma k fuel err =>
    bacht_exec_all_no_error fuel e c sigma k (Or.inr (hwf input e h)) err⟩

/-- Witness for C10 on the parse of `tell(a)`. -/
theorem C10_parse_safe_witness :
    AgentWF (.BachtAstPrimitive "tell" "a") = true
  ∧ bacht_exec_all (fun _ => true) (.BachtAstPrimitive "tell" "a") BachTStore.emptyStore 0 1
      ≠ some (.error .UnknownAgent) :=
  ⟨C10_parse_safe.1 "tell(a)".data (.BachtAstPrimitive "tell" "a") rfl,
   C10_parse_safe.2 "tell(a)".data (.BachtAstPrimitive "tell" "a") rfl
     (fun _ => true) BachTStore.emptyStore 0 1 .UnknownAgent⟩
